import Mathlib

/-! Grain-growing simulation: embedding of `grainsim.cpp`.

The program keeps seven global variables and a generator seed, and runs four
threads (`Deer`, `Grain`, `Watcher`, `MyAgent`) whose loop bodies are split by
three barriers into a compute part, an assignment part and a printing part.

* C++ `int` values are embedded as `Int`: signed overflow is undefined in C++,
  and wherever the C++ value is defined it is the mathematical one. The cast
  `(int) x` of a float is 32 bits wide: see `toInt`.
* C++ `float` values are embedded in an arbitrary linearly ordered field `α`
  with a floor function (`ℚ` for evaluation, `ℝ` for the statements about real
  numbers). The arithmetic is exact, except in the int overload of `Ranf`,
  whose float operations are rounded by `float32`.
* `exp`, `cos`, `sin`, `M_PI`, `rand_r` and `RAND_MAX` come from the C library
  and are taken as parameters, bundled in `Libm`.
* `printf` has no effect on the state and is left out.
-/

namespace GrainSim

/-- The global variables of `grainsim.cpp` (lines 17-24 and 43). -/
structure State (α : Type) where
  NowYear : Int
  NowMonth : Int
  NowPrecip : α
  NowTemp : α
  NowHeight : α
  NowNumDeer : Int
  NowNumHunters : Int
  seed : Nat

/-- The C library functions and constants used by the program. `rand_r seed`
returns the drawn value together with the updated seed. -/
structure Libm (α : Type) where
  exp : α → α
  cos : α → α
  sin : α → α
  M_PI : α
  rand_r : Nat → Nat × Nat
  RAND_MAX : Nat

section Defs

variable {α : Type} [LinearOrderedField α] [FloorRing α]

def GRAIN_GROWS_PER_MONTH : α := 9
def ONE_DEER_EATS_PER_MONTH : α := 1

def AVG_PRECIP_PER_MONTH : α := 7
def AMP_PRECIP_PER_MONTH : α := 6
def RANDOM_PRECIP : α := 2

def AVG_TEMP : α := 60
def AMP_TEMP : α := 20
def RANDOM_TEMP : α := 10

def MIDTEMP : α := 40
def MIDPRECIP : α := 10

/-- The function `SQR` (line 46). -/
def SQR (x : α) : α := x * x

/-- The least value of the 32-bit `int`. -/
def INT_MIN : Int := -2147483648

/-- The greatest value of the 32-bit `int`. -/
def INT_MAX : Int := 2147483647

/-- Truncation toward zero. -/
def truncate (x : α) : Int := if 0 ≤ x then ⌊x⌋ else ⌈x⌉

/-- The conversion `(int) x` of a float: truncation toward zero when the
result fits the 32-bit `int`. Out of that range the conversion is undefined in
C++; the value taken here is `INT_MIN`, which is what the conversion
instruction of x86 delivers. -/
def toInt (x : α) : Int :=
  if INT_MIN ≤ truncate x ∧ truncate x ≤ INT_MAX then truncate x else INT_MIN

/-- The float overload of `Ranf` (lines 50-54) in exact arithmetic: the value
returned and the seed left in `*seedp`. -/
def Ranf (lib : Libm α) (seedp : Nat) (low high : α) : α × Nat :=
  let r : α := ((lib.rand_r seedp).1 : α)
  (low + r * (high - low) / (lib.RAND_MAX : α), (lib.rand_r seedp).2)

/-- Rounding to the nearest integer, ties to the even one. -/
def roundHalfEven (x : α) : Int :=
  if x - (⌊x⌋ : α) < 1 / 2 then ⌊x⌋
  else if 1 / 2 < x - (⌊x⌋ : α) then ⌊x⌋ + 1
  else if ⌊x⌋ % 2 = 0 then ⌊x⌋ else ⌊x⌋ + 1

/-- The `float` nearest to `x`: 24 significant bits, round to nearest, ties to
even (IEEE 754 binary32). The exponent is not bounded, so the value is the
one of the machine for results in the range of the normal floats. -/
def float32 (x : α) : α :=
  if x = 0 then 0
  else
    (roundHalfEven (x / (2 : α) ^ (Int.log 2 |x| - 23)) : α) *
      (2 : α) ^ (Int.log 2 |x| - 23)

/-- The float overload of `Ranf` (lines 50-54) in float arithmetic: the
conversions `(float) rand_r(seedp)` and `(float) RAND_MAX` and each of the four
operations of line 53 are rounded to `float`. -/
def Ranf_float (lib : Libm α) (seedp : Nat) (low high : α) : α × Nat :=
  let r : α := float32 ((lib.rand_r seedp).1 : α)
  (float32 (low + float32 (float32 (r * float32 (high - low)) /
      float32 (lib.RAND_MAX : α))),
    (lib.rand_r seedp).2)

/-- The int overload of `Ranf` (lines 56-61), in float arithmetic: `low` and
`high` are floats, `0.9999f` is the float nearest to 0.9999, the sum is
rounded, the float overload is called and its result cast to `int`. -/
def Ranf_int (lib : Libm α) (seedp : Nat) (ilow ihigh : Int) : Int × Nat :=
  let low : α := float32 (ilow : α)
  let high : α := float32 (float32 (ihigh : α) + float32 (9999 / 10000))
  (toInt (Ranf_float lib seedp low high).1, (Ranf_float lib seedp low high).2)

/-! ## Deer (lines 65-99) -/

/-- Line 71: `int carryingCapacity = (int) (NowHeight);`. -/
def carryingCapacity (NowHeight : α) : Int := toInt NowHeight

/-- Lines 73-78: the move of the deer count toward the carrying capacity. -/
def deerMove (nextNumDeer carryingCapacity : Int) : Int :=
  if nextNumDeer < carryingCapacity then nextNumDeer + 1
  else if nextNumDeer > carryingCapacity then nextNumDeer - 1
  else nextNumDeer

/-- Lines 80-83: the deer killed by hunters; `/` on `int` truncates. -/
def deerHunt (nextNumDeer NowNumHunters : Int) : Int :=
  if NowNumHunters > 0 then
    let deerKilled := Int.tdiv NowNumHunters 5
    nextNumDeer - deerKilled
  else nextNumDeer

/-- Lines 85-87: the floor of one deer. -/
def deerClamp (nextNumDeer : Int) : Int :=
  if nextNumDeer ≤ 0 then 1 else nextNumDeer

/-- The compute part of `Deer` (lines 70-87): the value of `nextNumDeer` at
the DoneComputing barrier. -/
def Deer (s : State α) : Int :=
  let nextNumDeer := s.NowNumDeer
  let carryingCapacity := carryingCapacity s.NowHeight
  let nextNumDeer := deerMove nextNumDeer carryingCapacity
  let nextNumDeer := deerHunt nextNumDeer s.NowNumHunters
  deerClamp nextNumDeer

/-! ## Grain (lines 101-128) -/

/-- The compute part of `Grain` (lines 106-115): the value of `nextHeight` at
the DoneComputing barrier. -/
def Grain (lib : Libm α) (s : State α) : α :=
  let tempFactor := lib.exp (-SQR ((s.NowTemp - MIDTEMP) / 10))
  let precipFactor := lib.exp (-SQR ((s.NowPrecip - MIDPRECIP) / 10))
  let nextHeight := s.NowHeight
  let nextHeight := nextHeight + tempFactor * precipFactor * GRAIN_GROWS_PER_MONTH
  let nextHeight := nextHeight - (s.NowNumDeer : α) * ONE_DEER_EATS_PER_MONTH
  if nextHeight < 0 then 0 else nextHeight

/-! ## MyAgent (lines 170-201) -/

/-- Lines 178-189: the hunting season. Each of the four branches assigns
`nextNumHunters`, so the value it was declared with is overwritten. -/
def huntingSeason (NowMonth nextNumHunters : Int) : Int :=
  if NowMonth = 8 then 3
  else if NowMonth = 9 then 4
  else if NowMonth = 10 then 2
  else Function.const Int 0 nextNumHunters

/-- The compute part of `MyAgent` (lines 175-189): the value of
`nextNumHunters` at the DoneComputing barrier. -/
def MyAgent (s : State α) : Int :=
  let nextNumHunters := s.NowNumHunters
  huntingSeason s.NowMonth nextNumHunters

/-! ## Watcher (lines 130-168) -/

/-- Lines 145-151: the clock advance. -/
def advanceClock (s : State α) : State α :=
  if s.NowMonth = 11 then { s with NowMonth := 0, NowYear := s.NowYear + 1 }
  else { s with NowMonth := s.NowMonth + 1 }

/-- Lines 154-163: the weather of the month now in `NowMonth`. -/
def resetWeather (lib : Libm α) (s : State α) : State α :=
  let ang : α := (30 * (s.NowMonth : α) + 15) * (lib.M_PI / 180)
  let temp : α := AVG_TEMP - AMP_TEMP * lib.cos ang
  let draw1 := Ranf lib s.seed (-RANDOM_TEMP) RANDOM_TEMP
  let NowTemp := temp + draw1.1
  let precip : α := AVG_PRECIP_PER_MONTH + AMP_PRECIP_PER_MONTH * lib.sin ang
  let draw2 := Ranf lib draw1.2 (-RANDOM_PRECIP) RANDOM_PRECIP
  let NowPrecip := precip + draw2.1
  let NowPrecip := if NowPrecip < 0 then 0 else NowPrecip
  { s with NowTemp := NowTemp, NowPrecip := NowPrecip, seed := draw2.2 }

/-- The printing part of `Watcher` (lines 141-163), without the `printf`. -/
def Watcher (lib : Libm α) (s : State α) : State α :=
  resetWeather lib (advanceClock s)

/-! ## The four threads and one pass through their loop bodies -/

/-- The four sections of `main` (lines 216-234), in source order. -/
inductive Agent where
  | deer
  | grain
  | watcher
  | myAgent
  deriving DecidableEq, Repr

/-- The loop-local variables `nextNumDeer`, `nextHeight`, `nextNumHunters`,
one per thread that has one. -/
structure Locals (α : Type) where
  nextNumDeer : Int
  nextHeight : α
  nextNumHunters : Int

/-- What a thread does before the DoneComputing barrier: it reads the globals
and writes its own local. `Watcher` does nothing there. -/
def computeStep (lib : Libm α) (a : Agent) (s : State α) (l : Locals α) : Locals α :=
  match a with
  | Agent.deer => { l with nextNumDeer := Deer s }
  | Agent.grain => { l with nextHeight := Grain lib s }
  | Agent.watcher => l
  | Agent.myAgent => { l with nextNumHunters := MyAgent s }

/-- What a thread does between the DoneComputing and DoneAssigning barriers
(lines 91, 120, 193): it copies its local into its global. -/
def commitStep (a : Agent) (l : Locals α) (s : State α) : State α :=
  match a with
  | Agent.deer => { s with NowNumDeer := l.nextNumDeer }
  | Agent.grain => { s with NowHeight := l.nextHeight }
  | Agent.watcher => s
  | Agent.myAgent => { s with NowNumHunters := l.nextNumHunters }

/-- What a thread does between the DoneAssigning and DonePrinting barriers:
only `Watcher` acts. -/
def observeStep (lib : Libm α) (a : Agent) (s : State α) : State α :=
  match a with
  | Agent.watcher => Watcher lib s
  | _ => s

/-- The compute parts of the threads listed in `order`, run one after the
other on the globals `s`. -/
def computePhase (lib : Libm α) (order : List Agent) (s : State α) (l : Locals α) :
    Locals α :=
  order.foldl (fun l a => computeStep lib a s l) l

/-- The assignment parts of the threads listed in `order`, run one after the
other. -/
def commitPhase (order : List Agent) (l : Locals α) (s : State α) : State α :=
  order.foldl (fun s a => commitStep a l s) s

/-- The printing parts of the threads listed in `order`, run one after the
other. -/
def observePhase (lib : Libm α) (order : List Agent) (s : State α) : State α :=
  order.foldl (fun s a => observeStep lib a s) s

/-- The compute and assignment parts of one pass, the threads scheduled in the
order `o1` before the DoneComputing barrier and `o2` after it; `l` holds
whatever the locals contain on entry. -/
def computeCommit (lib : Libm α) (o1 o2 : List Agent) (l : Locals α) (s : State α) :
    State α :=
  commitPhase o2 (computePhase lib o1 s l) s

/-- The threads in the order of the sections of `main`. -/
def agents : List Agent := [Agent.deer, Agent.grain, Agent.watcher, Agent.myAgent]

/-- The locals as declared: each is initialised from its global. -/
def declaredLocals (s : State α) : Locals α :=
  { nextNumDeer := s.NowNumDeer, nextHeight := s.NowHeight,
    nextNumHunters := s.NowNumHunters }

/-- One pass of all four threads through their loop bodies (one simulated
month), scheduled in source order. -/
def tick (lib : Libm α) (s : State α) : State α :=
  observePhase lib agents (computeCommit lib agents agents (declaredLocals s) s)

/-- The globals when the threads start: `NowTemp` and `NowPrecip` are not
assigned by `main` and keep the zero of static storage; `seed` starts at 0
and has been advanced once by the initialiser of the global `x` (line 63);
the rest is set by `main` (lines 205-211). -/
def initState (lib : Libm α) : State α :=
  { NowYear := 2021, NowMonth := 0, NowPrecip := 0, NowTemp := 0, NowHeight := 3,
    NowNumDeer := 1, NowNumHunters := 0,
    seed := (Ranf lib 0 (-1 : α) 1).2 }

/-- The loop `while (NowYear < 2027)` around the pass, with a bound on the
number of passes: `none` when the bound is used up before the test fails,
otherwise the final globals and the number of passes made. -/
def simulate (lib : Libm α) : Nat → State α → Option (State α × Nat)
  | 0, s => if s.NowYear < 2027 then none else some (s, 0)
  | fuel + 1, s =>
    if s.NowYear < 2027 then
      (simulate lib fuel (tick lib s)).map (fun r => (r.1, r.2 + 1))
    else some (s, 0)

/-! ## The four threads running concurrently

The team has four threads, one per section of `main`. Each thread runs the
loop `while (NowYear < 2027) { compute; barrier; assign; barrier; print;
barrier }` of its function; no barrier stands inside a conditional and no loop
body has a `break` or `return`. A step of the system is either one thread
doing the next part of its loop, or the release of a barrier. As in OpenMP a
barrier has no name: the threads are released when all four are waiting,
wherever each of them waits. Memory is sequentially consistent and each part
between two barriers is one step. -/

/-- Where a thread stands in its loop: at the test, before its compute part,
waiting at DoneComputing, before its assignment, waiting at DoneAssigning,
before its printing part, waiting at DonePrinting, or out of the loop. -/
inductive Pc where
  | top
  | compute
  | waitA
  | commit
  | waitB
  | observe
  | waitC
  | done
  deriving DecidableEq, Repr

/-- Whether the thread is waiting at a barrier. -/
def Pc.waiting : Pc → Bool
  | Pc.waitA => true
  | Pc.waitB => true
  | Pc.waitC => true
  | _ => false

/-- Where a thread continues when the barrier it waits at is released. -/
def Pc.afterBarrier : Pc → Pc
  | Pc.waitA => Pc.commit
  | Pc.waitB => Pc.observe
  | Pc.waitC => Pc.top
  | p => p

/-- A thread: where it stands, and counters (not in the program) of the loop
bodies it has entered and of its arrivals at each of the three barriers. -/
structure Thread where
  pc : Pc
  entered : Nat
  arrivedA : Nat
  arrivedB : Nat
  arrivedC : Nat
  deriving DecidableEq, Repr

/-- The globals, the loop locals and the four threads. -/
structure Config (α : Type) where
  globals : State α
  locals : Locals α
  threads : Agent → Thread

/-- The next part of the loop of thread `a`, when `a` is not waiting at a
barrier and has not left the loop. -/
def threadStep (lib : Libm α) (a : Agent) (c : Config α) : Option (Config α) :=
  let t := c.threads a
  match t.pc with
  | Pc.top =>
    if c.globals.NowYear < 2027 then
      some { c with threads :=
        Function.update c.threads a { t with pc := Pc.compute, entered := t.entered + 1 } }
    else
      some { c with threads := Function.update c.threads a { t with pc := Pc.done } }
  | Pc.compute =>
    some { c with
      locals := computeStep lib a c.globals c.locals
      threads := Function.update c.threads a
        { t with pc := Pc.waitA, arrivedA := t.arrivedA + 1 } }
  | Pc.commit =>
    some { c with
      globals := commitStep a c.locals c.globals
      threads := Function.update c.threads a
        { t with pc := Pc.waitB, arrivedB := t.arrivedB + 1 } }
  | Pc.observe =>
    some { c with
      globals := observeStep lib a c.globals
      threads := Function.update c.threads a
        { t with pc := Pc.waitC, arrivedC := t.arrivedC + 1 } }
  | _ => none

/-- Whether all four threads wait at a barrier. -/
def allWaiting (c : Config α) : Bool :=
  agents.all (fun a => (c.threads a).pc.waiting)

/-- The release of the barrier: when all four threads wait, each continues
after the barrier it waits at. -/
def release (c : Config α) : Option (Config α) :=
  if allWaiting c then
    some { c with threads := fun a =>
      { c.threads a with pc := (c.threads a).pc.afterBarrier } }
  else none

/-- The threads when the parallel region starts: each at its first test. -/
def initThread : Thread :=
  { pc := Pc.top, entered := 0, arrivedA := 0, arrivedB := 0, arrivedC := 0 }

/-- The system when the parallel region starts; `l` is whatever the memory of
the locals holds. -/
def initConfig (lib : Libm α) (l : Locals α) : Config α :=
  { globals := initState lib, locals := l, threads := fun _ => initThread }

/-- One step of the system. -/
inductive Step (lib : Libm α) : Config α → Config α → Prop where
  | thread (a : Agent) (c c' : Config α) : threadStep lib a c = some c' → Step lib c c'
  | barrier (c c' : Config α) : release c = some c' → Step lib c c'

/-- The configurations the system can be in, under every schedule. -/
inductive Reach (lib : Libm α) (l : Locals α) : Config α → Prop where
  | start : Reach lib l (initConfig lib l)
  | next (c c' : Config α) : Reach lib l c → Step lib c c' → Reach lib l c'

/-- A scheduler for evaluation: the first thread in source order that can
move does, and the barrier is released when none can. -/
def schedule (lib : Libm α) (c : Config α) : Option (Config α) :=
  (agents.findSome? (fun a => threadStep lib a c)).orElse (fun _ => release c)

/-- The configuration after `n` scheduled steps (unchanged once no step is
left). -/
def runSchedule (lib : Libm α) : Nat → Config α → Config α
  | 0, c => c
  | n + 1, c =>
    match schedule lib c with
    | some c' => runSchedule lib n c'
    | none => c

/-! ## The lockstep invariant of the concurrent system -/

/-- The globals after `k` passes from the starting state. -/
def after (lib : Libm α) (k : Nat) : State α := (tick lib)^[k] (initState lib)

/-- The record of a thread that stands at `pc` having completed `k` passes:
the counters it must show there. -/
def threadAt (k : Nat) : Pc → Thread
  | Pc.top => ⟨Pc.top, k, k, k, k⟩
  | Pc.compute => ⟨Pc.compute, k + 1, k, k, k⟩
  | Pc.waitA => ⟨Pc.waitA, k + 1, k + 1, k, k⟩
  | Pc.commit => ⟨Pc.commit, k + 1, k + 1, k, k⟩
  | Pc.waitB => ⟨Pc.waitB, k + 1, k + 1, k + 1, k⟩
  | Pc.observe => ⟨Pc.observe, k + 1, k + 1, k + 1, k⟩
  | Pc.waitC => ⟨Pc.waitC, k + 1, k + 1, k + 1, k + 1⟩
  | Pc.done => ⟨Pc.done, k, k, k, k⟩

/-- The local of thread `a` holds the value computed from the globals `G`. -/
def computed (lib : Libm α) (G : State α) (l : Locals α) : Agent → Prop
  | Agent.deer => l.nextNumDeer = Deer G
  | Agent.grain => l.nextHeight = Grain lib G
  | Agent.watcher => True
  | Agent.myAgent => l.nextNumHunters = MyAgent G

/-- The global of thread `a` still holds its value in `G`. -/
def uncommitted (G g : State α) : Agent → Prop
  | Agent.deer => g.NowNumDeer = G.NowNumDeer
  | Agent.grain => g.NowHeight = G.NowHeight
  | Agent.watcher => True
  | Agent.myAgent => g.NowNumHunters = G.NowNumHunters

/-- The global of thread `a` holds the value computed from the globals `G`. -/
def committed (lib : Libm α) (G g : State α) : Agent → Prop
  | Agent.deer => g.NowNumDeer = Deer G
  | Agent.grain => g.NowHeight = Grain lib G
  | Agent.watcher => True
  | Agent.myAgent => g.NowNumHunters = MyAgent G

/-- The globals written in the printing part are the same in `g` and `G`. -/
def sameRest (G g : State α) : Prop :=
  g.NowYear = G.NowYear ∧ g.NowMonth = G.NowMonth ∧ g.NowPrecip = G.NowPrecip ∧
  g.NowTemp = G.NowTemp ∧ g.seed = G.seed

/-- The simultaneous update of the three computed globals. -/
def assigned (lib : Libm α) (G : State α) : State α :=
  { G with NowNumDeer := Deer G, NowHeight := Grain lib G, NowNumHunters := MyAgent G }

/-- The lockstep invariant: all four threads are in the same part of the same
pass `k + 1`, and the globals are those of the sequential simulation.
* `testing`: between DonePrinting and DoneComputing, the loop going on;
* `leaving`: after the last DonePrinting, the threads leaving the loop;
* `assigning`: between DoneComputing and DoneAssigning;
* `printing`: between DoneAssigning and DonePrinting. -/
inductive Inv (lib : Libm α) (c : Config α) : Prop where
  | testing (k : Nat) (hk : k < 72) (hg : c.globals = after lib k)
      (ht : ∀ a, c.threads a = threadAt k Pc.top ∨ c.threads a = threadAt k Pc.compute ∨
        (c.threads a = threadAt k Pc.waitA ∧ computed lib (after lib k) c.locals a)) :
      Inv lib c
  | leaving (hg : c.globals = after lib 72)
      (ht : ∀ a, c.threads a = threadAt 72 Pc.top ∨ c.threads a = threadAt 72 Pc.done) :
      Inv lib c
  | assigning (k : Nat) (hk : k < 72) (hr : sameRest (after lib k) c.globals)
      (ht : ∀ a,
        (c.threads a = threadAt k Pc.commit ∧ computed lib (after lib k) c.locals a ∧
          uncommitted (after lib k) c.globals a) ∨
        (c.threads a = threadAt k Pc.waitB ∧ committed lib (after lib k) c.globals a)) :
      Inv lib c
  | printing (k : Nat) (hk : k < 72)
      (ht : ∀ a, c.threads a = threadAt k Pc.observe ∨ c.threads a = threadAt k Pc.waitC)
      (hg : (c.threads Agent.watcher = threadAt k Pc.observe ∧
              c.globals = assigned lib (after lib k)) ∨
            (c.threads Agent.watcher = threadAt k Pc.waitC ∧
              c.globals = after lib (k + 1))) :
      Inv lib c

/-! ## Counting the steps of the concurrent system -/

/-- A run of `n` steps of the system from one configuration to another. -/
inductive Run (lib : Libm α) : Config α → Nat → Config α → Prop where
  | refl (c : Config α) : Run lib c 0 c
  | step (c c' c'' : Config α) (n : Nat) :
      Step lib c c' → Run lib c' n c'' → Run lib c (n + 1) c''

/-- The steps a thread has made itself, read off its counters: one per loop
body entered, one per arrival at a barrier, one for leaving the loop. -/
def threadWork (t : Thread) : Int :=
  (t.entered : Int) + t.arrivedA + t.arrivedB + t.arrivedC + (if t.pc = Pc.done then 1 else 0)

/-- The barriers a thread has been released from: those it has arrived at,
less the one it is waiting at. -/
def barriersPassed (t : Thread) : Int :=
  (t.arrivedA : Int) + t.arrivedB + t.arrivedC - (if t.pc.waiting then 1 else 0)

/-- The steps the system has made: those of the four threads and the barrier
releases (read off the `Deer` thread, every release being common to all). -/
def work (c : Config α) : Int :=
  threadWork (c.threads Agent.deer) + threadWork (c.threads Agent.grain) +
    threadWork (c.threads Agent.watcher) + threadWork (c.threads Agent.myAgent) +
    barriersPassed (c.threads Agent.deer)

/-- A library over the rationals for evaluating the definitions: constant
`exp`, `cos`, `sin`, a small linear congruential generator. -/
def sampleLib : Libm ℚ :=
  { exp := fun _ => 1 / 2, cos := fun _ => 1, sin := fun _ => 0, M_PI := 22 / 7,
    rand_r := fun n => ((5 * n + 3) % 8, (5 * n + 3) % 8), RAND_MAX := 7 }

/-- A library over the rationals whose generator returns the raw draw `r`,
with `RAND_MAX = 2 ^ 31 - 1`. -/
def drawLib (r : Nat) : Libm ℚ :=
  { exp := fun _ => 1 / 2, cos := fun _ => 1, sin := fun _ => 0, M_PI := 22 / 7,
    rand_r := fun n => (r, n + 1), RAND_MAX := 2147483647 }

end Defs

/-! ## Shared lemmas -/

section Lemmas

variable {α : Type}

theorem deerClamp_pos (n : Int) : 1 ≤ deerClamp n := by
  unfold deerClamp
  split_ifs with h
  · exact le_refl 1
  · omega

theorem Deer_pos [LinearOrderedField α] [FloorRing α] (s : State α) : 1 ≤ Deer s :=
  deerClamp_pos _

theorem tick_eq [LinearOrderedField α] [FloorRing α] (lib : Libm α) (s : State α) :
    tick lib s = Watcher lib { s with NowNumDeer := Deer s, NowHeight := Grain lib s,
                                      NowNumHunters := MyAgent s } := rfl

theorem Watcher_NowNumDeer [LinearOrderedField α] (lib : Libm α) (s : State α) :
    (Watcher lib s).NowNumDeer = s.NowNumDeer := by
  unfold Watcher resetWeather advanceClock
  split_ifs <;> rfl

theorem tick_NowNumDeer [LinearOrderedField α] [FloorRing α] (lib : Libm α)
    (s : State α) :
    (tick lib s).NowNumDeer = Deer s := by
  rw [tick_eq, Watcher_NowNumDeer]

theorem truncate_of_nonneg [LinearOrderedField α] [FloorRing α] (x : α) (hx : 0 ≤ x) :
    truncate x = ⌊x⌋ := by
  unfold truncate
  rw [if_pos hx]

/-- The cast of a non-negative float below `2 ^ 31` is its floor. -/
theorem toInt_of_nonneg [LinearOrderedField α] [FloorRing α] (x : α) (hx : 0 ≤ x)
    (hlt : x < 2147483648) : toInt x = ⌊x⌋ := by
  have h0 : (0 : Int) ≤ ⌊x⌋ := Int.floor_nonneg.mpr hx
  have h1 : ⌊x⌋ < 2147483648 := by
    rw [Int.floor_lt]
    exact_mod_cast hlt
  unfold toInt INT_MIN INT_MAX
  rw [truncate_of_nonneg x hx, if_pos ⟨by omega, by omega⟩]

/-- The cast of a float of at least `2 ^ 31` is `INT_MIN`. -/
theorem toInt_of_large [LinearOrderedField α] [FloorRing α] (x : α)
    (hge : 2147483648 ≤ x) : toInt x = INT_MIN := by
  have hx : (0 : α) ≤ x := le_trans (by norm_num) hge
  have h1 : (2147483648 : Int) ≤ ⌊x⌋ := by
    rw [Int.le_floor]
    exact_mod_cast hge
  unfold toInt
  rw [truncate_of_nonneg x hx, if_neg]
  unfold INT_MAX
  intro h
  omega

theorem deerMove_lt (d c : Int) (h : d < c) : deerMove d c = d + 1 := by
  unfold deerMove
  rw [if_pos h]

theorem deerMove_gt (d c : Int) (h : d > c) : deerMove d c = d - 1 := by
  unfold deerMove
  rw [if_neg (by omega), if_pos h]

theorem deerMove_eq (d c : Int) (h : d = c) : deerMove d c = d := by
  unfold deerMove
  rw [if_neg (by omega), if_neg (by omega)]

theorem deerMove_near (d c : Int) : |deerMove d c - d| ≤ 1 := by
  rcases lt_trichotomy d c with h | h | h
  · rw [deerMove_lt d c h]; simp
  · rw [deerMove_eq d c h]; simp
  · rw [deerMove_gt d c h]; simp

theorem deerMove_reaches (d c : Int) (h : deerMove d c = c) : |c - d| ≤ 1 := by
  rw [← h]
  exact deerMove_near d c

theorem huntingSeason_eq (m n : Int) :
    huntingSeason m n = if m = 8 then 3 else if m = 9 then 4 else if m = 10 then 2 else 0 :=
  rfl

theorem advanceClock_NowMonth (s : State α) :
    (advanceClock s).NowMonth = if s.NowMonth = 11 then 0 else s.NowMonth + 1 := by
  unfold advanceClock
  split_ifs <;> rfl

theorem advanceClock_NowYear (s : State α) :
    (advanceClock s).NowYear = if s.NowMonth = 11 then s.NowYear + 1 else s.NowYear := by
  unfold advanceClock
  split_ifs <;> rfl

theorem Watcher_NowMonth [LinearOrderedField α] (lib : Libm α) (s : State α) :
    (Watcher lib s).NowMonth = if s.NowMonth = 11 then 0 else s.NowMonth + 1 :=
  advanceClock_NowMonth s

theorem Watcher_NowYear [LinearOrderedField α] (lib : Libm α) (s : State α) :
    (Watcher lib s).NowYear = if s.NowMonth = 11 then s.NowYear + 1 else s.NowYear :=
  advanceClock_NowYear s

theorem tick_NowMonth [LinearOrderedField α] [FloorRing α] (lib : Libm α) (s : State α) :
    (tick lib s).NowMonth = if s.NowMonth = 11 then 0 else s.NowMonth + 1 := by
  rw [tick_eq, Watcher_NowMonth]

theorem tick_NowYear [LinearOrderedField α] [FloorRing α] (lib : Libm α) (s : State α) :
    (tick lib s).NowYear = if s.NowMonth = 11 then s.NowYear + 1 else s.NowYear := by
  rw [tick_eq, Watcher_NowYear]

/-- The clock after `k` applications of any step that advances it the way
`Watcher` does, started at month 0. -/
theorem clock_iterate (f : State α → State α)
    (hm : ∀ s, (f s).NowMonth = if s.NowMonth = 11 then 0 else s.NowMonth + 1)
    (hy : ∀ s, (f s).NowYear = if s.NowMonth = 11 then s.NowYear + 1 else s.NowYear)
    (s : State α) (hs : s.NowMonth = 0) (k : Nat) :
    (f^[k] s).NowMonth = ((k % 12 : Nat) : Int) ∧
    (f^[k] s).NowYear = s.NowYear + ((k / 12 : Nat) : Int) := by
  induction k with
  | zero => simp [hs]
  | succ n ih =>
    rw [Function.iterate_succ_apply', hm, hy, ih.1, ih.2]
    by_cases h11 : n % 12 = 11
    · have h1 : (n + 1) % 12 = 0 := by omega
      have h2 : (n + 1) / 12 = n / 12 + 1 := by omega
      rw [h11, h1, h2]
      simp
      ring
    · have h1 : (n + 1) % 12 = n % 12 + 1 := by omega
      have h2 : (n + 1) / 12 = n / 12 := by omega
      have h3 : ((n % 12 : Nat) : Int) ≠ 11 := by omega
      rw [if_neg h3, if_neg h3, h1, h2]
      simp

theorem Grain_eq_max [LinearOrderedField α] (lib : Libm α) (s : State α) :
    Grain lib s =
      max 0 (s.NowHeight +
        lib.exp (-((s.NowTemp - 40) / 10) ^ 2) * lib.exp (-((s.NowPrecip - 10) / 10) ^ 2) * 9 -
        (s.NowNumDeer : α) * 1) := by
  simp only [Grain, SQR, MIDTEMP, MIDPRECIP, GRAIN_GROWS_PER_MONTH, ONE_DEER_EATS_PER_MONTH,
    ← pow_two]
  split_ifs with h
  · exact (max_eq_left (le_of_lt h)).symm
  · exact (max_eq_right (not_lt.mp h)).symm

theorem Grain_nonneg [LinearOrderedField α] (lib : Libm α) (s : State α) :
    0 ≤ Grain lib s := by
  rw [Grain_eq_max]
  exact le_max_left _ _

theorem Watcher_NowHeight [LinearOrderedField α] (lib : Libm α) (s : State α) :
    (Watcher lib s).NowHeight = s.NowHeight := by
  unfold Watcher resetWeather advanceClock
  split_ifs <;> rfl

theorem Watcher_NowNumHunters [LinearOrderedField α] (lib : Libm α) (s : State α) :
    (Watcher lib s).NowNumHunters = s.NowNumHunters := by
  unfold Watcher resetWeather advanceClock
  split_ifs <;> rfl

theorem tick_NowHeight [LinearOrderedField α] [FloorRing α] (lib : Libm α) (s : State α) :
    (tick lib s).NowHeight = Grain lib s := by
  rw [tick_eq, Watcher_NowHeight]

theorem tick_NowNumHunters [LinearOrderedField α] [FloorRing α] (lib : Libm α)
    (s : State α) : (tick lib s).NowNumHunters = MyAgent s := by
  rw [tick_eq, Watcher_NowNumHunters]

theorem computeStep_comm [LinearOrderedField α] [FloorRing α] (lib : Libm α) (s : State α)
    (a b : Agent) (l : Locals α) :
    computeStep lib b s (computeStep lib a s l) =
      computeStep lib a s (computeStep lib b s l) := by
  cases a <;> cases b <;> rfl

theorem commitStep_comm (l : Locals α) (a b : Agent) (s : State α) :
    commitStep b l (commitStep a l s) = commitStep a l (commitStep b l s) := by
  cases a <;> cases b <;> rfl

theorem observeStep_comm [LinearOrderedField α] (lib : Libm α) (o : List Agent)
    (h : o.Perm agents) (s : State α) : observePhase lib o s = Watcher lib s := by
  have hcount : o.count Agent.watcher = 1 := by rw [h.count_eq]; rfl
  have key : ∀ (o : List Agent) (s : State α),
      observePhase lib o s = (Watcher lib)^[o.count Agent.watcher] s := by
    intro o
    induction o with
    | nil => intro s; rfl
    | cons a t ih =>
      intro s
      show observePhase lib t (observeStep lib a s) = _
      rw [ih]
      cases a <;> simp [observeStep, List.count_cons]
  rw [key, hcount]
  rfl

theorem computePhase_perm [LinearOrderedField α] [FloorRing α] (lib : Libm α) (s : State α)
    (o : List Agent) (h : o.Perm agents) (l : Locals α) :
    computePhase lib o s l = computePhase lib agents s l :=
  h.foldl_eq' (fun x _ y _ z => computeStep_comm lib s x y z) l

theorem commitPhase_perm (l : Locals α) (o : List Agent) (h : o.Perm agents) (s : State α) :
    commitPhase o l s = commitPhase agents l s :=
  h.foldl_eq' (fun x _ y _ z => commitStep_comm l x y z) s

theorem initState_NowYear [LinearOrderedField α] (lib : Libm α) :
    (initState lib).NowYear = 2021 := rfl

theorem initState_NowMonth [LinearOrderedField α] (lib : Libm α) :
    (initState lib).NowMonth = 0 := rfl

/-- The year after `k` passes from the starting state. -/
theorem year_after [LinearOrderedField α] [FloorRing α] (lib : Libm α) (k : Nat) :
    ((tick lib)^[k] (initState lib)).NowYear = 2021 + ((k / 12 : Nat) : Int) := by
  have h := (clock_iterate (tick lib) (tick_NowMonth lib) (tick_NowYear lib)
    (initState lib) (initState_NowMonth lib) k).2
  rw [h, initState_NowYear]

theorem month_after [LinearOrderedField α] [FloorRing α] (lib : Libm α) (k : Nat) :
    ((tick lib)^[k] (initState lib)).NowMonth = ((k % 12 : Nat) : Int) :=
  (clock_iterate (tick lib) (tick_NowMonth lib) (tick_NowYear lib)
    (initState lib) (initState_NowMonth lib) k).1

theorem simulate_of_ge [LinearOrderedField α] [FloorRing α] (lib : Libm α) (fuel : Nat)
    (s : State α) (h : ¬ s.NowYear < 2027) : simulate lib fuel s = some (s, 0) := by
  cases fuel with
  | zero => simp [simulate, h]
  | succ n => simp [simulate, h]

theorem simulate_of_lt [LinearOrderedField α] [FloorRing α] (lib : Libm α) (fuel : Nat)
    (s : State α) (h : s.NowYear < 2027) :
    simulate lib (fuel + 1) s =
      (simulate lib fuel (tick lib s)).map (fun r => (r.1, r.2 + 1)) := by
  simp [simulate, h]

/-- With `j` passes left to make and at least that much fuel, the loop ends in
the state after 72 passes and reports `j` passes. -/
theorem simulate_from [LinearOrderedField α] [FloorRing α] (lib : Libm α) (n : Nat) :
    ∀ j k : Nat, k + j = 72 →
      simulate lib (j + n) ((tick lib)^[k] (initState lib)) =
        some ((tick lib)^[72] (initState lib), j) := by
  intro j
  induction j with
  | zero =>
    intro k hk
    have hk72 : k = 72 := by omega
    subst hk72
    apply simulate_of_ge
    rw [year_after]
    norm_num
  | succ j ih =>
    intro k hk
    have hlt : ((tick lib)^[k] (initState lib)).NowYear < 2027 := by
      rw [year_after]
      have : k / 12 < 6 := by omega
      omega
    have hfuel : j + 1 + n = (j + n) + 1 := by omega
    rw [hfuel, simulate_of_lt lib _ _ hlt, ← Function.iterate_succ_apply' (tick lib) k,
      ih (k + 1) (by omega)]
    rfl

/-- With fewer than the remaining number of passes as fuel, the loop does not
reach its end. -/
theorem simulate_short [LinearOrderedField α] [FloorRing α] (lib : Libm α) :
    ∀ j k : Nat, k + j < 72 → simulate lib j ((tick lib)^[k] (initState lib)) = none := by
  intro j
  induction j with
  | zero =>
    intro k hk
    have hlt : ((tick lib)^[k] (initState lib)).NowYear < 2027 := by
      rw [year_after]
      have : k / 12 < 6 := by omega
      omega
    simp [simulate, hlt]
  | succ j ih =>
    intro k hk
    have hlt : ((tick lib)^[k] (initState lib)).NowYear < 2027 := by
      rw [year_after]
      have : k / 12 < 6 := by omega
      omega
    rw [simulate_of_lt lib _ _ hlt, ← Function.iterate_succ_apply' (tick lib) k,
      ih (k + 1) (by omega)]
    rfl

end Lemmas

/-! ## Lemmas on the concurrent system -/

section LockstepBasic

variable {α : Type}

theorem threadAt_pc (k : Nat) (p : Pc) : (threadAt k p).pc = p := by
  cases p <;> rfl

theorem uncommitted_keep (G g : State α) (l : Locals α) (a b : Agent)
    (hne : b ≠ a) (h : uncommitted G g b) : uncommitted G (commitStep a l g) b := by
  cases a <;> cases b <;> simp_all [uncommitted, commitStep]

theorem sameRest_keep (G g : State α) (l : Locals α) (a : Agent)
    (h : sameRest G g) : sameRest G (commitStep a l g) := by
  cases a <;> exact h

theorem uncommitted_refl (G : State α) (a : Agent) : uncommitted G G a := by
  cases a <;> simp [uncommitted]

theorem sameRest_refl (G : State α) : sameRest G G := ⟨rfl, rfl, rfl, rfl, rfl⟩

theorem allWaiting_iff (c : Config α) :
    allWaiting c = true ↔ ∀ a, (c.threads a).pc.waiting = true := by
  unfold allWaiting agents
  constructor
  · intro h a
    simp only [List.all_cons, List.all_nil, Bool.and_true, Bool.and_eq_true] at h
    cases a
    · exact h.1
    · exact h.2.1
    · exact h.2.2.1
    · exact h.2.2.2
  · intro h
    simp [h]

theorem release_eq (c c' : Config α) (h : release c = some c') :
    (∀ a, (c.threads a).pc.waiting = true) ∧
    c' = { c with
      threads := fun a => { c.threads a with pc := (c.threads a).pc.afterBarrier } } := by
  unfold release at h
  by_cases hw : allWaiting c = true
  · rw [if_pos hw] at h
    exact ⟨(allWaiting_iff c).mp hw, (Option.some.inj h).symm⟩
  · rw [if_neg hw] at h
    exact absurd h (by simp)

/-- A thread standing at `p` after `k` passes is not waiting, for the places
that are not barriers. -/
theorem not_waiting_of_eq (t : Thread) (k : Nat) (p : Pc) (hp : p.waiting = false)
    (ht : t = threadAt k p) (hw : t.pc.waiting = true) : False := by
  rw [ht, threadAt_pc, hp] at hw
  exact Bool.false_ne_true hw

theorem eq_threadAt_self (t : Thread) (k : Nat) (p : Pc) (h : t = threadAt k p) :
    t = threadAt k t.pc := by
  subst h
  rw [threadAt_pc]

theorem pc_of_eq (t : Thread) (k : Nat) (p q : Pc) (h : t = threadAt k p) (hq : t.pc = q) :
    p = q := by
  rw [h, threadAt_pc] at hq
  exact hq

theorem threadAt_entered (k : Nat) (p : Pc) :
    k ≤ (threadAt k p).entered ∧ (threadAt k p).entered ≤ k + 1 := by
  cases p <;> simp [threadAt]

theorem threadAt_arrived (k : Nat) (p : Pc) (hp : p = Pc.top ∨ p = Pc.done) :
    (threadAt k p).arrivedA = (threadAt k p).entered ∧
    (threadAt k p).arrivedB = (threadAt k p).entered ∧
    (threadAt k p).arrivedC = (threadAt k p).entered := by
  rcases hp with hp | hp <;> subst hp <;> exact ⟨rfl, rfl, rfl⟩

end LockstepBasic

section Lockstep

variable {α : Type} [LinearOrderedField α] [FloorRing α]

theorem after_succ (lib : Libm α) (k : Nat) : after lib (k + 1) = tick lib (after lib k) :=
  Function.iterate_succ_apply' (tick lib) k (initState lib)

theorem after_year_lt (lib : Libm α) (k : Nat) (hk : k < 72) :
    (after lib k).NowYear < 2027 := by
  unfold after
  rw [year_after]
  have : k / 12 < 6 := by omega
  omega

theorem after_year_ge (lib : Libm α) : ¬ (after lib 72).NowYear < 2027 := by
  unfold after
  rw [year_after]
  norm_num

theorem computed_self (lib : Libm α) (G : State α) (l : Locals α) (a : Agent) :
    computed lib G (computeStep lib a G l) a := by
  cases a <;> simp [computed, computeStep]

theorem computed_keep (lib : Libm α) (G : State α) (l : Locals α) (a b : Agent)
    (h : computed lib G l b) : computed lib G (computeStep lib a G l) b := by
  cases a <;> cases b <;> simp_all [computed, computeStep]

theorem committed_self (lib : Libm α) (G g : State α) (l : Locals α) (a : Agent)
    (h : computed lib G l a) : committed lib G (commitStep a l g) a := by
  cases a <;> simp_all [computed, committed, commitStep]

theorem committed_keep (lib : Libm α) (G g : State α) (l : Locals α) (a b : Agent)
    (hne : b ≠ a) (h : committed lib G g b) : committed lib G (commitStep a l g) b := by
  cases a <;> cases b <;> simp_all [committed, commitStep]

theorem eq_assigned (lib : Libm α) (G g : State α) (hr : sameRest G g)
    (hc : ∀ a, committed lib G g a) : g = assigned lib G := by
  have h1 := hc Agent.deer
  have h2 := hc Agent.grain
  have h3 := hc Agent.myAgent
  obtain ⟨r1, r2, r3, r4, r5⟩ := hr
  cases g
  cases G
  simp_all [committed, assigned]

theorem observe_assigned (lib : Libm α) (G : State α) :
    observeStep lib Agent.watcher (assigned lib G) = tick lib G := rfl

theorem threadStep_top_lt (lib : Libm α) (a : Agent) (c : Config α)
    (hp : (c.threads a).pc = Pc.top) (hy : c.globals.NowYear < 2027) :
    threadStep lib a c = some { c with
      threads := Function.update c.threads a
        { c.threads a with pc := Pc.compute, entered := (c.threads a).entered + 1 } } := by
  simp [threadStep, hp, hy]

theorem threadStep_top_ge (lib : Libm α) (a : Agent) (c : Config α)
    (hp : (c.threads a).pc = Pc.top) (hy : ¬ c.globals.NowYear < 2027) :
    threadStep lib a c = some { c with
      threads := Function.update c.threads a { c.threads a with pc := Pc.done } } := by
  simp [threadStep, hp, hy]

theorem threadStep_compute (lib : Libm α) (a : Agent) (c : Config α)
    (hp : (c.threads a).pc = Pc.compute) :
    threadStep lib a c = some { c with
      locals := computeStep lib a c.globals c.locals
      threads := Function.update c.threads a
        { c.threads a with pc := Pc.waitA, arrivedA := (c.threads a).arrivedA + 1 } } := by
  simp [threadStep, hp]

theorem threadStep_commit (lib : Libm α) (a : Agent) (c : Config α)
    (hp : (c.threads a).pc = Pc.commit) :
    threadStep lib a c = some { c with
      globals := commitStep a c.locals c.globals
      threads := Function.update c.threads a
        { c.threads a with pc := Pc.waitB, arrivedB := (c.threads a).arrivedB + 1 } } := by
  simp [threadStep, hp]

theorem threadStep_observe (lib : Libm α) (a : Agent) (c : Config α)
    (hp : (c.threads a).pc = Pc.observe) :
    threadStep lib a c = some { c with
      globals := observeStep lib a c.globals
      threads := Function.update c.threads a
        { c.threads a with pc := Pc.waitC, arrivedC := (c.threads a).arrivedC + 1 } } := by
  simp [threadStep, hp]

theorem threadStep_blocked (lib : Libm α) (a : Agent) (c : Config α)
    (hp : (c.threads a).pc = Pc.waitA ∨ (c.threads a).pc = Pc.waitB ∨
      (c.threads a).pc = Pc.waitC ∨ (c.threads a).pc = Pc.done) :
    threadStep lib a c = none := by
  rcases hp with hp | hp | hp | hp <;> simp [threadStep, hp]

/-- A step of one thread keeps the lockstep invariant. -/
theorem Inv_thread (lib : Libm α) (a : Agent) (c c' : Config α) (h : Inv lib c)
    (hstep : threadStep lib a c = some c') : Inv lib c' := by
  cases h with
  | testing k hk hg ht =>
    rcases ht a with h1 | h1 | ⟨h1, _⟩
    · have hp : (c.threads a).pc = Pc.top := by rw [h1]; rfl
      have hy : c.globals.NowYear < 2027 := by rw [hg]; exact after_year_lt lib k hk
      rw [threadStep_top_lt lib a c hp hy] at hstep
      cases hstep
      refine Inv.testing k hk hg (fun b => ?_)
      by_cases hb : b = a
      · subst hb
        right; left
        simp only [Function.update_same, h1]
        rfl
      · simp only [Function.update_noteq hb]
        exact ht b
    · have hp : (c.threads a).pc = Pc.compute := by rw [h1]; rfl
      rw [threadStep_compute lib a c hp] at hstep
      cases hstep
      refine Inv.testing k hk hg (fun b => ?_)
      by_cases hb : b = a
      · subst hb
        right; right
        simp only [Function.update_same, h1]
        refine ⟨rfl, ?_⟩
        rw [hg]
        exact computed_self lib _ _ _
      · simp only [Function.update_noteq hb]
        rcases ht b with h2 | h2 | ⟨h2, h3⟩
        · exact Or.inl h2
        · exact Or.inr (Or.inl h2)
        · refine Or.inr (Or.inr ⟨h2, ?_⟩)
          rw [hg]
          exact computed_keep lib _ _ _ _ h3
    · have hp : (c.threads a).pc = Pc.waitA := by rw [h1]; rfl
      rw [threadStep_blocked lib a c (Or.inl hp)] at hstep
      cases hstep
  | leaving hg ht =>
    rcases ht a with h1 | h1
    · have hp : (c.threads a).pc = Pc.top := by rw [h1]; rfl
      have hy : ¬ c.globals.NowYear < 2027 := by rw [hg]; exact after_year_ge lib
      rw [threadStep_top_ge lib a c hp hy] at hstep
      cases hstep
      refine Inv.leaving hg (fun b => ?_)
      by_cases hb : b = a
      · subst hb
        right
        simp only [Function.update_same, h1]
        rfl
      · simp only [Function.update_noteq hb]
        exact ht b
    · have hp : (c.threads a).pc = Pc.done := by rw [h1]; rfl
      rw [threadStep_blocked lib a c (Or.inr (Or.inr (Or.inr hp)))] at hstep
      cases hstep
  | assigning k hk hr ht =>
    rcases ht a with ⟨h1, hc1, _⟩ | ⟨h1, _⟩
    · have hp : (c.threads a).pc = Pc.commit := by rw [h1]; rfl
      rw [threadStep_commit lib a c hp] at hstep
      cases hstep
      refine Inv.assigning k hk (sameRest_keep _ _ _ _ hr) (fun b => ?_)
      by_cases hb : b = a
      · subst hb
        right
        simp only [Function.update_same, h1]
        exact ⟨rfl, committed_self lib _ _ _ _ hc1⟩
      · simp only [Function.update_noteq hb]
        rcases ht b with ⟨h2, h3, h4⟩ | ⟨h2, h3⟩
        · exact Or.inl ⟨h2, h3, uncommitted_keep _ _ _ _ _ hb h4⟩
        · exact Or.inr ⟨h2, committed_keep lib _ _ _ _ _ hb h3⟩
    · have hp : (c.threads a).pc = Pc.waitB := by rw [h1]; rfl
      rw [threadStep_blocked lib a c (Or.inr (Or.inl hp))] at hstep
      cases hstep
  | printing k hk ht hg =>
    rcases ht a with h1 | h1
    · have hp : (c.threads a).pc = Pc.observe := by rw [h1]; rfl
      rw [threadStep_observe lib a c hp] at hstep
      cases hstep
      have hthreads : ∀ b, Function.update c.threads a
          { c.threads a with pc := Pc.waitC, arrivedC := (c.threads a).arrivedC + 1 } b =
            threadAt k Pc.observe ∨
          Function.update c.threads a
          { c.threads a with pc := Pc.waitC, arrivedC := (c.threads a).arrivedC + 1 } b =
            threadAt k Pc.waitC := by
        intro b
        by_cases hb : b = a
        · subst hb
          right
          simp only [Function.update_same, h1]
          rfl
        · simp only [Function.update_noteq hb]
          exact ht b
      refine Inv.printing k hk hthreads ?_
      by_cases hw : a = Agent.watcher
      · subst hw
        right
        rcases hg with ⟨_, hg2⟩ | ⟨hg1, _⟩
        · refine ⟨by simp only [Function.update_same, h1]; rfl, ?_⟩
          show observeStep lib Agent.watcher c.globals = after lib (k + 1)
          rw [hg2, observe_assigned, after_succ]
        · rw [h1] at hg1
          have hpc := congrArg Thread.pc hg1
          rw [threadAt_pc, threadAt_pc] at hpc
          exact absurd hpc (by decide)
      · have hsame : observeStep lib a c.globals = c.globals := by
          cases a
          · rfl
          · rfl
          · exact absurd rfl hw
          · rfl
        have hupd : Function.update c.threads a
            { c.threads a with pc := Pc.waitC, arrivedC := (c.threads a).arrivedC + 1 }
            Agent.watcher = c.threads Agent.watcher :=
          Function.update_noteq (Ne.symm hw) _ _
        show (Function.update c.threads a _ Agent.watcher = _ ∧
            observeStep lib a c.globals = _) ∨
          (Function.update c.threads a _ Agent.watcher = _ ∧
            observeStep lib a c.globals = _)
        rw [hsame, hupd]
        exact hg
    · have hp : (c.threads a).pc = Pc.waitC := by rw [h1]; rfl
      rw [threadStep_blocked lib a c (Or.inr (Or.inr (Or.inl hp)))] at hstep
      cases hstep

/-- The release of a barrier keeps the lockstep invariant. -/
theorem Inv_barrier (lib : Libm α) (c c' : Config α) (h : Inv lib c)
    (hrel : release c = some c') : Inv lib c' := by
  obtain ⟨hw, rfl⟩ := release_eq c c' hrel
  cases h with
  | testing k hk hg ht =>
    have hall : ∀ a, c.threads a = threadAt k Pc.waitA ∧
        computed lib (after lib k) c.locals a := by
      intro a
      rcases ht a with h1 | h1 | h1
      · exact (not_waiting_of_eq _ k Pc.top rfl h1 (hw a)).elim
      · exact (not_waiting_of_eq _ k Pc.compute rfl h1 (hw a)).elim
      · exact h1
    refine Inv.assigning k hk (hg ▸ sameRest_refl _) (fun a => Or.inl ⟨?_, (hall a).2, ?_⟩)
    · show { c.threads a with pc := (c.threads a).pc.afterBarrier } = threadAt k Pc.commit
      rw [(hall a).1]
      rfl
    · show uncommitted (after lib k) c.globals a
      rw [hg]
      exact uncommitted_refl _ a
  | leaving hg ht =>
    rcases ht Agent.deer with h1 | h1
    · exact (not_waiting_of_eq _ 72 Pc.top rfl h1 (hw Agent.deer)).elim
    · exact (not_waiting_of_eq _ 72 Pc.done rfl h1 (hw Agent.deer)).elim
  | assigning k hk hr ht =>
    have hall : ∀ a, c.threads a = threadAt k Pc.waitB ∧
        committed lib (after lib k) c.globals a := by
      intro a
      rcases ht a with ⟨h1, _⟩ | h1
      · exact (not_waiting_of_eq _ k Pc.commit rfl h1 (hw a)).elim
      · exact h1
    have hthreads : ∀ a, { c.threads a with pc := (c.threads a).pc.afterBarrier } =
        threadAt k Pc.observe := by
      intro a
      rw [(hall a).1]
      rfl
    exact Inv.printing k hk (fun a => Or.inl (hthreads a))
      (Or.inl ⟨hthreads Agent.watcher, eq_assigned lib _ _ hr (fun a => (hall a).2)⟩)
  | printing k hk ht hg =>
    have hall : ∀ a, c.threads a = threadAt k Pc.waitC := by
      intro a
      rcases ht a with h1 | h1
      · exact (not_waiting_of_eq _ k Pc.observe rfl h1 (hw a)).elim
      · exact h1
    have hglob : c.globals = after lib (k + 1) := by
      rcases hg with ⟨h1, _⟩ | ⟨_, h2⟩
      · exact (not_waiting_of_eq _ k Pc.observe rfl h1 (hw Agent.watcher)).elim
      · exact h2
    have hthreads : ∀ a, { c.threads a with pc := (c.threads a).pc.afterBarrier } =
        threadAt (k + 1) Pc.top := by
      intro a
      rw [hall a]
      rfl
    by_cases hlast : k + 1 < 72
    · exact Inv.testing (k + 1) hlast hglob (fun a => Or.inl (hthreads a))
    · have h72 : k + 1 = 72 := by omega
      rw [h72] at hglob hthreads
      exact Inv.leaving hglob (fun a => Or.inl (hthreads a))

/-- Every step keeps the lockstep invariant. -/
theorem Inv_step (lib : Libm α) (c c' : Config α) (h : Inv lib c) (hs : Step lib c c') :
    Inv lib c' := by
  cases hs with
  | thread a _ _ hstep => exact Inv_thread lib a c c' h hstep
  | barrier _ _ hrel => exact Inv_barrier lib c c' h hrel

/-- The lockstep invariant holds when the parallel region starts. -/
theorem Inv_init (lib : Libm α) (l : Locals α) : Inv lib (initConfig lib l) :=
  Inv.testing 0 (by norm_num) rfl (fun _ => Or.inl rfl)

/-- The lockstep invariant holds in every configuration the system can be
in. -/
theorem Inv_of_Reach (lib : Libm α) (l : Locals α) (c : Config α) (h : Reach lib l c) :
    Inv lib c := by
  induction h with
  | start => exact Inv_init lib l
  | next c c' _ hs ih => exact Inv_step lib c c' ih hs

/-- In lockstep all four threads show the counters of their place in one and
the same pass. -/
theorem Inv_threads (lib : Libm α) (c : Config α) (h : Inv lib c) :
    ∃ k, k ≤ 72 ∧ ∀ a, c.threads a = threadAt k (c.threads a).pc := by
  cases h with
  | testing k hk hg ht =>
    refine ⟨k, le_of_lt hk, fun a => ?_⟩
    rcases ht a with h1 | h1 | ⟨h1, _⟩ <;> exact eq_threadAt_self _ _ _ h1
  | leaving hg ht =>
    refine ⟨72, le_refl 72, fun a => ?_⟩
    rcases ht a with h1 | h1 <;> exact eq_threadAt_self _ _ _ h1
  | assigning k hk hr ht =>
    refine ⟨k, le_of_lt hk, fun a => ?_⟩
    rcases ht a with ⟨h1, _⟩ | ⟨h1, _⟩ <;> exact eq_threadAt_self _ _ _ h1
  | printing k hk ht hg =>
    refine ⟨k, le_of_lt hk, fun a => ?_⟩
    rcases ht a with h1 | h1 <;> exact eq_threadAt_self _ _ _ h1

/-- In lockstep a thread at its test reads the globals left by the passes it
has made. -/
theorem Inv_top (lib : Libm α) (c : Config α) (h : Inv lib c) (a : Agent)
    (hp : (c.threads a).pc = Pc.top) : c.globals = after lib (c.threads a).entered := by
  cases h with
  | testing k hk hg ht =>
    rcases ht a with h1 | h1 | ⟨h1, _⟩
    · rw [h1, hg]; rfl
    · exact absurd (pc_of_eq _ _ _ _ h1 hp) (by decide)
    · exact absurd (pc_of_eq _ _ _ _ h1 hp) (by decide)
  | leaving hg ht =>
    rcases ht a with h1 | h1
    · rw [h1, hg]; rfl
    · exact absurd (pc_of_eq _ _ _ _ h1 hp) (by decide)
  | assigning k hk hr ht =>
    rcases ht a with ⟨h1, _⟩ | ⟨h1, _⟩ <;> exact absurd (pc_of_eq _ _ _ _ h1 hp) (by decide)
  | printing k hk ht hg =>
    rcases ht a with h1 | h1 <;> exact absurd (pc_of_eq _ _ _ _ h1 hp) (by decide)

/-- In lockstep, once a thread has left the loop the globals are those after
72 passes and every thread is at its test or has left, with 72 bodies
entered. -/
theorem Inv_done (lib : Libm α) (c : Config α) (h : Inv lib c) (a : Agent)
    (hp : (c.threads a).pc = Pc.done) :
    c.globals = after lib 72 ∧
    ∀ b, ((c.threads b).pc = Pc.top ∨ (c.threads b).pc = Pc.done) ∧
      (c.threads b).entered = 72 := by
  cases h with
  | testing k hk hg ht =>
    rcases ht a with h1 | h1 | ⟨h1, _⟩ <;> exact absurd (pc_of_eq _ _ _ _ h1 hp) (by decide)
  | leaving hg ht =>
    refine ⟨hg, fun b => ?_⟩
    rcases ht b with h1 | h1
    · rw [h1]; exact ⟨Or.inl rfl, rfl⟩
    · rw [h1]; exact ⟨Or.inr rfl, rfl⟩
  | assigning k hk hr ht =>
    rcases ht a with ⟨h1, _⟩ | ⟨h1, _⟩ <;> exact absurd (pc_of_eq _ _ _ _ h1 hp) (by decide)
  | printing k hk ht hg =>
    rcases ht a with h1 | h1 <;> exact absurd (pc_of_eq _ _ _ _ h1 hp) (by decide)

/-- A thread that is neither waiting nor out of the loop can make a step. -/
theorem threadStep_some (lib : Libm α) (a : Agent) (c : Config α)
    (hw : (c.threads a).pc.waiting = false) (hd : (c.threads a).pc ≠ Pc.done) :
    ∃ c', threadStep lib a c = some c' := by
  cases hpc : (c.threads a).pc with
  | top =>
    by_cases hy : c.globals.NowYear < 2027
    · exact ⟨_, threadStep_top_lt lib a c hpc hy⟩
    · exact ⟨_, threadStep_top_ge lib a c hpc hy⟩
  | compute => exact ⟨_, threadStep_compute lib a c hpc⟩
  | commit => exact ⟨_, threadStep_commit lib a c hpc⟩
  | observe => exact ⟨_, threadStep_observe lib a c hpc⟩
  | waitA => rw [hpc] at hw; exact absurd hw (by decide)
  | waitB => rw [hpc] at hw; exact absurd hw (by decide)
  | waitC => rw [hpc] at hw; exact absurd hw (by decide)
  | done => exact absurd hpc hd

/-- In lockstep the system is never stuck: either all four threads have left
the loop or a step is possible. -/
theorem Inv_progress (lib : Libm α) (c : Config α) (h : Inv lib c) :
    (∀ a, (c.threads a).pc = Pc.done) ∨ ∃ c', Step lib c c' := by
  by_cases hall : allWaiting c = true
  · right
    have hrel : release c = some { c with
        threads := fun a => { c.threads a with pc := (c.threads a).pc.afterBarrier } } := by
      unfold release
      rw [if_pos hall]
    exact ⟨_, Step.barrier c _ hrel⟩
  · have hex : ∃ a, (c.threads a).pc.waiting = false := by
      by_contra hno
      apply hall
      rw [allWaiting_iff]
      intro a
      by_contra ha
      exact hno ⟨a, by simpa using ha⟩
    obtain ⟨a, ha⟩ := hex
    by_cases hd : (c.threads a).pc = Pc.done
    · by_cases hdone : ∀ b, (c.threads b).pc = Pc.done
      · exact Or.inl hdone
      · right
        have hex2 : ∃ b, (c.threads b).pc ≠ Pc.done := by
          by_contra hno
          apply hdone
          intro b
          by_contra hb
          exact hno ⟨b, hb⟩
        obtain ⟨b, hb⟩ := hex2
        have hbtop : (c.threads b).pc = Pc.top := by
          rcases ((Inv_done lib c h a hd).2 b).1 with h1 | h1
          · exact h1
          · exact absurd h1 hb
        obtain ⟨c', hc'⟩ := threadStep_some lib b c (by rw [hbtop]; rfl) hb
        exact ⟨c', Step.thread b c c' hc'⟩
    · right
      obtain ⟨c', hc'⟩ := threadStep_some lib a c ha hd
      exact ⟨c', Step.thread a c c' hc'⟩

/-- Only the printing part of `Watcher` changes the clock. -/
theorem clock_frame (lib : Libm α) (c c' : Config α) (hs : Step lib c c') :
    (c'.globals.NowYear = c.globals.NowYear ∧ c'.globals.NowMonth = c.globals.NowMonth) ∨
    (c.threads Agent.watcher).pc = Pc.observe := by
  cases hs with
  | barrier _ _ hrel =>
    obtain ⟨_, rfl⟩ := release_eq c c' hrel
    exact Or.inl ⟨rfl, rfl⟩
  | thread a _ _ hstep =>
    cases hpc : (c.threads a).pc with
    | top =>
      by_cases hy : c.globals.NowYear < 2027
      · rw [threadStep_top_lt lib a c hpc hy] at hstep
        cases hstep
        exact Or.inl ⟨rfl, rfl⟩
      · rw [threadStep_top_ge lib a c hpc hy] at hstep
        cases hstep
        exact Or.inl ⟨rfl, rfl⟩
    | compute =>
      rw [threadStep_compute lib a c hpc] at hstep
      cases hstep
      exact Or.inl ⟨rfl, rfl⟩
    | commit =>
      rw [threadStep_commit lib a c hpc] at hstep
      cases hstep
      left
      cases a <;> exact ⟨rfl, rfl⟩
    | observe =>
      rw [threadStep_observe lib a c hpc] at hstep
      cases hstep
      cases a
      · exact Or.inl ⟨rfl, rfl⟩
      · exact Or.inl ⟨rfl, rfl⟩
      · exact Or.inr hpc
      · exact Or.inl ⟨rfl, rfl⟩
    | waitA =>
      rw [threadStep_blocked lib a c (Or.inl hpc)] at hstep
      cases hstep
    | waitB =>
      rw [threadStep_blocked lib a c (Or.inr (Or.inl hpc))] at hstep
      cases hstep
    | waitC =>
      rw [threadStep_blocked lib a c (Or.inr (Or.inr (Or.inl hpc)))] at hstep
      cases hstep
    | done =>
      rw [threadStep_blocked lib a c (Or.inr (Or.inr (Or.inr hpc)))] at hstep
      cases hstep

theorem schedule_step (lib : Libm α) (c c' : Config α) (h : schedule lib c = some c') :
    Step lib c c' := by
  unfold schedule at h
  cases hf : agents.findSome? (fun a => threadStep lib a c) with
  | some d =>
    rw [hf] at h
    obtain ⟨a, _, ha⟩ := List.exists_of_findSome?_eq_some hf
    have hd : d = c' := by simpa using h
    rw [hd] at ha
    exact Step.thread a c c' ha
  | none =>
    rw [hf] at h
    exact Step.barrier c c' (by simpa using h)

/-- Every configuration produced by the scheduler is one the system can be
in. -/
theorem Reach_runSchedule (lib : Libm α) (l : Locals α) (n : Nat) :
    ∀ c : Config α, Reach lib l c → Reach lib l (runSchedule lib n c) := by
  induction n with
  | zero => intro c hc; exact hc
  | succ n ih =>
    intro c hc
    unfold runSchedule
    cases hsch : schedule lib c with
    | none => exact hc
    | some c' => exact ih c' (Reach.next c c' hc (schedule_step lib c c' hsch))

end Lockstep

/-! ## Lemmas on the generator and the weather -/

section RandomLemmas

variable {α : Type}

/-- The value of the float `Ranf` in terms of the raw draw. -/
theorem Ranf_val [LinearOrderedField α] (lib : Libm α) (seedp : Nat) (low high : α) :
    (Ranf lib seedp low high).1 =
      low + ((lib.rand_r seedp).1 : α) * (high - low) / (lib.RAND_MAX : α) := rfl

/-- The seed left by the float `Ranf` is the one left by `rand_r`. -/
theorem Ranf_seed [LinearOrderedField α] (lib : Libm α) (seedp : Nat) (low high : α) :
    (Ranf lib seedp low high).2 = (lib.rand_r seedp).2 := rfl

/-- A raw draw of at most `RAND_MAX` scales into `[0, high - low]`. -/
theorem scaled_draw_bounds [LinearOrderedField α] (r m : Nat) (d : α) (hd : 0 ≤ d)
    (hr : r ≤ m) : 0 ≤ (r : α) * d / (m : α) ∧ (r : α) * d / (m : α) ≤ d := by
  have hr0 : (0 : α) ≤ (r : α) := Nat.cast_nonneg r
  have hm0 : (0 : α) ≤ (m : α) := Nat.cast_nonneg m
  refine ⟨div_nonneg (mul_nonneg hr0 hd) hm0, ?_⟩
  rcases Nat.eq_zero_or_pos m with hm | hm
  · subst hm
    simpa using hd
  · have hmpos : (0 : α) < (m : α) := Nat.cast_pos.mpr hm
    rw [div_le_iff₀ hmpos]
    have hrm : (r : α) ≤ (m : α) := Nat.cast_le.mpr hr
    calc (r : α) * d ≤ (m : α) * d := mul_le_mul_of_nonneg_right hrm hd
      _ = d * (m : α) := mul_comm _ _

/-- The float `Ranf` stays in `[low, high]` when the raw draw is at most
`RAND_MAX`. -/
theorem Ranf_mem [LinearOrderedField α] (lib : Libm α) (seedp : Nat) (low high : α)
    (h : low ≤ high) (hr : (lib.rand_r seedp).1 ≤ lib.RAND_MAX) :
    low ≤ (Ranf lib seedp low high).1 ∧ (Ranf lib seedp low high).1 ≤ high := by
  have hb := scaled_draw_bounds (lib.rand_r seedp).1 lib.RAND_MAX (high - low)
    (sub_nonneg.mpr h) hr
  rw [Ranf_val]
  constructor
  · linarith [hb.1]
  · linarith [hb.2]

end RandomLemmas

section WeatherLemmas

variable {α : Type}

theorem advanceClock_seed (s : State α) : (advanceClock s).seed = s.seed := by
  unfold advanceClock
  split_ifs <;> rfl

/-- The temperature left by `Watcher`: the seasonal value of the month after
the advance plus the first draw. -/
theorem Watcher_NowTemp [LinearOrderedField α] (lib : Libm α) (s : State α) :
    (Watcher lib s).NowTemp =
      60 - 20 * lib.cos ((30 * ((Watcher lib s).NowMonth : α) + 15) * (lib.M_PI / 180)) +
        (Ranf lib s.seed (-10) 10).1 := by
  simp only [Watcher, resetWeather, AVG_TEMP, AMP_TEMP, RANDOM_TEMP, advanceClock_seed]

/-- The precipitation left by `Watcher`: the seasonal value of the month after
the advance plus the second draw, with negative values replaced by 0. -/
theorem Watcher_NowPrecip [LinearOrderedField α] (lib : Libm α) (s : State α) :
    (Watcher lib s).NowPrecip =
      max 0
        (7 + 6 * lib.sin ((30 * ((Watcher lib s).NowMonth : α) + 15) * (lib.M_PI / 180)) +
          (Ranf lib (Ranf lib s.seed (-10) 10).2 (-2) 2).1) := by
  simp only [Watcher, resetWeather, AVG_PRECIP_PER_MONTH, AMP_PRECIP_PER_MONTH, RANDOM_PRECIP,
    RANDOM_TEMP, advanceClock_seed]
  split_ifs with h
  · exact (max_eq_left (le_of_lt h)).symm
  · exact (max_eq_right (not_lt.mp h)).symm

/-- The seed left by `Watcher`: two draws after the one it found. -/
theorem Watcher_seed [LinearOrderedField α] (lib : Libm α) (s : State α) :
    (Watcher lib s).seed = (lib.rand_r (lib.rand_r s.seed).2).2 := by
  simp only [Watcher, resetWeather, Ranf_seed, advanceClock_seed]

theorem Watcher_NowPrecip_nonneg [LinearOrderedField α] (lib : Libm α) (s : State α) :
    0 ≤ (Watcher lib s).NowPrecip := by
  rw [Watcher_NowPrecip]
  exact le_max_left _ _

theorem tick_NowPrecip_nonneg [LinearOrderedField α] [FloorRing α] (lib : Libm α)
    (s : State α) : 0 ≤ (tick lib s).NowPrecip := by
  rw [tick_eq]
  exact Watcher_NowPrecip_nonneg lib _

theorem tick_seed [LinearOrderedField α] [FloorRing α] (lib : Libm α) (s : State α) :
    (tick lib s).seed = (lib.rand_r (lib.rand_r s.seed).2).2 := by
  rw [tick_eq, Watcher_seed]

end WeatherLemmas

section SeedLemmas

variable {α : Type}

theorem commitStep_seed (a : Agent) (l : Locals α) (s : State α) :
    (commitStep a l s).seed = s.seed := by
  cases a <;> rfl

theorem commitPhase_seed (o : List Agent) (l : Locals α) (s : State α) :
    (commitPhase o l s).seed = s.seed := by
  induction o generalizing s with
  | nil => rfl
  | cons a t ih =>
    show (commitPhase t l (commitStep a l s)).seed = s.seed
    rw [ih, commitStep_seed]

/-- The seed after `k` passes: two draws per pass after the one draw made
before `main`. -/
theorem seed_after [LinearOrderedField α] [FloorRing α] (lib : Libm α) (k : Nat) :
    ((tick lib)^[k] (initState lib)).seed =
      (fun n => (lib.rand_r (lib.rand_r n).2).2)^[k] (lib.rand_r 0).2 := by
  induction k with
  | zero => rfl
  | succ n ih =>
    rw [Function.iterate_succ_apply', Function.iterate_succ_apply', tick_seed, ih]

/-- Only the printing part of `Watcher` changes the seed. -/
theorem seed_frame [LinearOrderedField α] [FloorRing α] (lib : Libm α) (c c' : Config α)
    (hs : Step lib c c') :
    c'.globals.seed = c.globals.seed ∨ (c.threads Agent.watcher).pc = Pc.observe := by
  cases hs with
  | barrier _ _ hrel =>
    obtain ⟨_, rfl⟩ := release_eq c c' hrel
    exact Or.inl rfl
  | thread a _ _ hstep =>
    cases hpc : (c.threads a).pc with
    | top =>
      by_cases hy : c.globals.NowYear < 2027
      · rw [threadStep_top_lt lib a c hpc hy] at hstep
        cases hstep
        exact Or.inl rfl
      · rw [threadStep_top_ge lib a c hpc hy] at hstep
        cases hstep
        exact Or.inl rfl
    | compute =>
      rw [threadStep_compute lib a c hpc] at hstep
      cases hstep
      exact Or.inl rfl
    | commit =>
      rw [threadStep_commit lib a c hpc] at hstep
      cases hstep
      exact Or.inl (commitStep_seed a _ _)
    | observe =>
      rw [threadStep_observe lib a c hpc] at hstep
      cases hstep
      cases a
      · exact Or.inl rfl
      · exact Or.inl rfl
      · exact Or.inr hpc
      · exact Or.inl rfl
    | waitA =>
      rw [threadStep_blocked lib a c (Or.inl hpc)] at hstep
      cases hstep
    | waitB =>
      rw [threadStep_blocked lib a c (Or.inr (Or.inl hpc))] at hstep
      cases hstep
    | waitC =>
      rw [threadStep_blocked lib a c (Or.inr (Or.inr (Or.inl hpc)))] at hstep
      cases hstep
    | done =>
      rw [threadStep_blocked lib a c (Or.inr (Or.inr (Or.inr hpc)))] at hstep
      cases hstep

end SeedLemmas

section DeerLemmas

variable {α : Type}

theorem deerClamp_eq_max (n : Int) : deerClamp n = max 1 n := by
  unfold deerClamp
  split_ifs with h
  · exact (max_eq_left (by omega)).symm
  · exact (max_eq_right (by omega)).symm

theorem deerHunt_eq (n hunters : Int) :
    deerHunt n hunters = n - (if hunters > 0 then Int.tdiv hunters 5 else 0) := by
  unfold deerHunt
  split_ifs with h
  · rfl
  · exact (sub_zero n).symm

/-- The next deer count as a maximum. -/
theorem Deer_eq_max [LinearOrderedField α] [FloorRing α] (s : State α) :
    Deer s = max 1 (deerMove s.NowNumDeer (carryingCapacity s.NowHeight) -
      (if s.NowNumHunters > 0 then Int.tdiv s.NowNumHunters 5 else 0)) := by
  unfold Deer
  rw [deerClamp_eq_max, deerHunt_eq]

end DeerLemmas

section HunterLemmas

variable {α : Type}

theorem carryingCapacity_three [LinearOrderedField α] [FloorRing α] :
    carryingCapacity (3 : α) = 3 := by
  unfold carryingCapacity
  rw [toInt_of_nonneg 3 (by norm_num) (by norm_num)]
  exact Int.floor_ofNat 3

theorem MyAgent_values [LinearOrderedField α] (s : State α) :
    MyAgent s = 0 ∨ MyAgent s = 2 ∨ MyAgent s = 3 ∨ MyAgent s = 4 := by
  unfold MyAgent
  rw [huntingSeason_eq]
  split_ifs
  · exact Or.inr (Or.inr (Or.inl rfl))
  · exact Or.inr (Or.inr (Or.inr rfl))
  · exact Or.inr (Or.inl rfl)
  · exact Or.inl rfl

/-- The hunter count after any number of passes is 0, 2, 3 or 4. -/
theorem hunters_after [LinearOrderedField α] [FloorRing α] (lib : Libm α) (k : Nat) :
    ((tick lib)^[k] (initState lib)).NowNumHunters = 0 ∨
    ((tick lib)^[k] (initState lib)).NowNumHunters = 2 ∨
    ((tick lib)^[k] (initState lib)).NowNumHunters = 3 ∨
    ((tick lib)^[k] (initState lib)).NowNumHunters = 4 := by
  cases k with
  | zero => exact Or.inl rfl
  | succ n =>
    rw [Function.iterate_succ_apply', tick_NowNumHunters]
    exact MyAgent_values _

/-- The deer count after any number of passes is at least 1. -/
theorem deer_after [LinearOrderedField α] [FloorRing α] (lib : Libm α) (k : Nat) :
    1 ≤ ((tick lib)^[k] (initState lib)).NowNumDeer := by
  cases k with
  | zero => exact le_of_eq rfl
  | succ n =>
    rw [Function.iterate_succ_apply', tick_NowNumDeer]
    exact Deer_pos _

/-- The hunter count after `k + 1` passes is the one `MyAgent` assigns for the
month `k % 12`, the month of pass `k + 1`. -/
theorem hunters_lag [LinearOrderedField α] [FloorRing α] (lib : Libm α) (k : Nat) :
    ((tick lib)^[k + 1] (initState lib)).NowNumHunters =
      (if k % 12 = 8 then 3 else if k % 12 = 9 then 4 else if k % 12 = 10 then 2 else 0) := by
  rw [Function.iterate_succ_apply', tick_NowNumHunters]
  unfold MyAgent
  rw [huntingSeason_eq, month_after]
  have h8 : (((k % 12 : Nat) : Int) = 8) ↔ k % 12 = 8 := by omega
  have h9 : (((k % 12 : Nat) : Int) = 9) ↔ k % 12 = 9 := by omega
  have h10 : (((k % 12 : Nat) : Int) = 10) ↔ k % 12 = 10 := by omega
  simp only [h8, h9, h10]

end HunterLemmas

section FloatLemmas

variable {α : Type}

theorem roundHalfEven_eq [LinearOrderedField α] [FloorRing α] (x : α) (n : Int)
    (h1 : (n : α) - 1 / 2 < x) (h2 : x < (n : α) + 1 / 2) : roundHalfEven x = n := by
  unfold roundHalfEven
  by_cases hx : (n : α) ≤ x
  · have hf : ⌊x⌋ = n := by
      rw [Int.floor_eq_iff]
      exact ⟨hx, by linarith⟩
    rw [hf, if_pos (by linarith)]
  · have hx1 : x < (n : α) := not_le.mp hx
    have hf : ⌊x⌋ = n - 1 := by
      rw [Int.floor_eq_iff]
      push_cast
      exact ⟨by linarith, by linarith⟩
    rw [hf]
    push_cast
    rw [if_neg (by linarith), if_pos (by linarith)]
    ring

theorem log_two_eq [LinearOrderedField α] [FloorRing α] (x : α) (e : Int)
    (h1 : (2 : α) ^ e ≤ x) (h2 : x < (2 : α) ^ (e + 1)) : Int.log 2 x = e := by
  have hpos : (0 : α) < x := lt_of_lt_of_le (zpow_pos (by norm_num) e) h1
  have ha : e ≤ Int.log 2 x := by
    rw [← Int.zpow_le_iff_le_log (by norm_num) hpos]
    exact_mod_cast h1
  have hb : Int.log 2 x < e + 1 := by
    rw [← Int.lt_zpow_iff_log_lt (by norm_num) hpos]
    exact_mod_cast h2
  omega

/-- The float nearest to `x`, from its binary exponent `e` and the integer `n`
nearest to `x / 2 ^ (e - 23)`. -/
theorem float32_eq [LinearOrderedField α] [FloorRing α] (x y : α) (e n : Int)
    (h1 : (2 : α) ^ e ≤ |x|) (h2 : |x| < (2 : α) ^ (e + 1))
    (h3 : (n : α) - 1 / 2 < x / (2 : α) ^ (e - 23))
    (h4 : x / (2 : α) ^ (e - 23) < (n : α) + 1 / 2)
    (hy : (n : α) * (2 : α) ^ (e - 23) = y) : float32 x = y := by
  have hne : x ≠ 0 := by
    intro h0
    rw [h0, abs_zero] at h1
    exact absurd h1 (not_le.mpr (zpow_pos (by norm_num) e))
  unfold float32
  rw [if_neg hne, log_two_eq |x| e h1 h2, roundHalfEven_eq _ n h3 h4, hy]

theorem float32_zero [LinearOrderedField α] [FloorRing α] : float32 (0 : α) = 0 := by
  unfold float32
  rw [if_pos rfl]

/-- The cast of a negative float above -1 is 0. -/
theorem toInt_of_small_neg [LinearOrderedField α] [FloorRing α] (x : α) (h0 : x < 0)
    (h1 : -1 < x) : toInt x = 0 := by
  have ht : truncate x = 0 := by
    unfold truncate
    rw [if_neg (not_le.mpr h0), Int.ceil_eq_iff]
    push_cast
    exact ⟨by linarith, le_of_lt h0⟩
  unfold toInt
  rw [ht, if_pos ⟨by decide, by decide⟩]

theorem float32_nines : float32 (9999 / 10000 : ℚ) = 8387769 / 8388608 :=
  float32_eq _ _ (-1) 16775538 (by norm_num [abs_of_pos]) (by norm_num [abs_of_pos])
    (by norm_num) (by norm_num) (by norm_num)

theorem float32_rand_max : float32 (2147483647 : ℚ) = 2147483648 :=
  float32_eq _ _ 30 16777216 (by norm_num) (by norm_num) (by norm_num) (by norm_num)
    (by norm_num)

/-- The int `Ranf` on `[-2, -1]` in float arithmetic, at the raw draw
`3 * 2 ^ 29` of `2 ^ 31 - 1`: the float overload returns
`-4194933 / 2 ^ 23`, about -0.50007, and the cast gives 0. -/
theorem Ranf_int_minus_two_minus_one :
    (Ranf_float (drawLib 1610612736) 0 (float32 ((-2 : Int) : ℚ))
      (float32 (float32 ((-1 : Int) : ℚ) + float32 (9999 / 10000)))).1 =
      -4194933 / 8388608 ∧
    (Ranf_int (drawLib 1610612736) 0 (-2) (-1)).1 = 0 := by
  have e1 : float32 (-2 : ℚ) = -2 :=
    float32_eq _ _ 1 (-8388608) (by norm_num) (by norm_num) (by norm_num) (by norm_num)
      (by norm_num)
  have e2 : float32 (-1 : ℚ) = -1 :=
    float32_eq _ _ 0 (-8388608) (by norm_num) (by norm_num) (by norm_num) (by norm_num)
      (by norm_num)
  have e4 : float32 (-1 + 8387769 / 8388608 : ℚ) = -839 / 8388608 :=
    float32_eq _ _ (-14) (-13746176) (by norm_num [abs_of_neg]) (by norm_num [abs_of_neg])
      (by norm_num) (by norm_num) (by norm_num)
  have e5 : float32 (1610612736 : ℚ) = 1610612736 :=
    float32_eq _ _ 30 12582912 (by norm_num) (by norm_num) (by norm_num) (by norm_num)
      (by norm_num)
  have e7 : float32 (-839 / 8388608 - -2 : ℚ) = 16776377 / 8388608 :=
    float32_eq _ _ 0 16776377 (by norm_num [abs_of_pos]) (by norm_num [abs_of_pos])
      (by norm_num) (by norm_num) (by norm_num)
  have e8 : float32 (1610612736 * (16776377 / 8388608) : ℚ) = 3221064448 :=
    float32_eq _ _ 31 12582283 (by norm_num [abs_of_pos]) (by norm_num [abs_of_pos])
      (by norm_num) (by norm_num) (by norm_num)
  have e9 : float32 (3221064448 / 2147483648 : ℚ) = 12582283 / 8388608 :=
    float32_eq _ _ 0 12582283 (by norm_num [abs_of_pos]) (by norm_num [abs_of_pos])
      (by norm_num) (by norm_num) (by norm_num)
  have e10 : float32 (-2 + 12582283 / 8388608 : ℚ) = -4194933 / 8388608 :=
    float32_eq _ _ (-1) (-8389866) (by norm_num [abs_of_neg]) (by norm_num [abs_of_neg])
      (by norm_num) (by norm_num) (by norm_num)
  have hv : (Ranf_float (drawLib 1610612736) 0 (float32 ((-2 : Int) : ℚ))
      (float32 (float32 ((-1 : Int) : ℚ) + float32 (9999 / 10000)))).1 =
      -4194933 / 8388608 := by
    unfold Ranf_float drawLib
    simp only [Int.cast_neg, Int.cast_ofNat, Int.cast_one, Nat.cast_ofNat]
    rw [e1, e2, float32_nines, e4, e5, float32_rand_max, e7, e8, e9, e10]
  refine ⟨hv, ?_⟩
  show toInt (Ranf_float (drawLib 1610612736) 0 (float32 ((-2 : Int) : ℚ))
      (float32 (float32 ((-1 : Int) : ℚ) + float32 (9999 / 10000)))).1 = 0
  rw [hv]
  exact toInt_of_small_neg _ (by norm_num) (by norm_num)

/-- The int `Ranf` on `[0, 2048]` in float arithmetic, at the raw draw
`RAND_MAX = 2 ^ 31 - 1`: `2048 + 0.9999f` rounds to 2049, the float overload
returns 2049 and so does the cast. -/
theorem Ranf_int_zero_2048 :
    float32 (float32 ((2048 : Int) : ℚ) + float32 (9999 / 10000)) = 2049 ∧
    (Ranf_int (drawLib 2147483647) 0 0 2048).1 = 2049 := by
  have e2 : float32 (2048 : ℚ) = 2048 :=
    float32_eq _ _ 11 8388608 (by norm_num) (by norm_num) (by norm_num) (by norm_num)
      (by norm_num)
  have e4 : float32 (2048 + 8387769 / 8388608 : ℚ) = 2049 :=
    float32_eq _ _ 11 8392704 (by norm_num [abs_of_pos]) (by norm_num [abs_of_pos])
      (by norm_num) (by norm_num) (by norm_num)
  have e7 : float32 (2049 - 0 : ℚ) = 2049 :=
    float32_eq _ _ 11 8392704 (by norm_num) (by norm_num) (by norm_num) (by norm_num)
      (by norm_num)
  have e8 : float32 (2147483648 * 2049 : ℚ) = 4400193994752 :=
    float32_eq _ _ 42 8392704 (by norm_num) (by norm_num) (by norm_num) (by norm_num)
      (by norm_num)
  have e9 : float32 (4400193994752 / 2147483648 : ℚ) = 2049 :=
    float32_eq _ _ 11 8392704 (by norm_num) (by norm_num) (by norm_num) (by norm_num)
      (by norm_num)
  have e10 : float32 (0 + 2049 : ℚ) = 2049 :=
    float32_eq _ _ 11 8392704 (by norm_num) (by norm_num) (by norm_num) (by norm_num)
      (by norm_num)
  have hhigh : float32 (float32 ((2048 : Int) : ℚ) + float32 (9999 / 10000)) = 2049 := by
    simp only [Int.cast_ofNat]
    rw [e2, float32_nines, e4]
  have hv : (Ranf_float (drawLib 2147483647) 0 (float32 ((0 : Int) : ℚ))
      (float32 (float32 ((2048 : Int) : ℚ) + float32 (9999 / 10000)))).1 = 2049 := by
    rw [hhigh]
    unfold Ranf_float drawLib
    simp only [Int.cast_zero, Nat.cast_ofNat]
    rw [float32_zero, float32_rand_max, e7, e8, e9, e10]
  refine ⟨hhigh, ?_⟩
  show toInt (Ranf_float (drawLib 2147483647) 0 (float32 ((0 : Int) : ℚ))
      (float32 (float32 ((2048 : Int) : ℚ) + float32 (9999 / 10000)))).1 = 2049
  rw [hv, toInt_of_nonneg 2049 (by norm_num) (by norm_num)]
  exact Int.floor_ofNat 2049

end FloatLemmas

section WorkLemmas

variable {α : Type}

theorem threadWork_release (t : Thread) (hw : t.pc.waiting = true) :
    threadWork { t with pc := t.pc.afterBarrier } = threadWork t := by
  unfold threadWork
  cases h : t.pc <;> simp_all [Pc.waiting, Pc.afterBarrier]

theorem barriersPassed_release (t : Thread) (hw : t.pc.waiting = true) :
    barriersPassed { t with pc := t.pc.afterBarrier } = barriersPassed t + 1 := by
  unfold barriersPassed
  cases h : t.pc <;> simp_all [Pc.waiting, Pc.afterBarrier]

/-- A barrier release is counted once. -/
theorem work_release (c c' : Config α) (hrel : release c = some c') :
    work c' = work c + 1 := by
  obtain ⟨hw, rfl⟩ := release_eq c c' hrel
  unfold work
  simp only [threadWork_release _ (hw _), barriersPassed_release _ (hw _)]
  ring

/-- A step of a thread is counted once. -/
theorem work_thread [LinearOrderedField α] [FloorRing α] (lib : Libm α) (a : Agent)
    (c c' : Config α) (hstep : threadStep lib a c = some c') : work c' = work c + 1 := by
  cases hpc : (c.threads a).pc with
  | top =>
    by_cases hy : c.globals.NowYear < 2027
    · rw [threadStep_top_lt lib a c hpc hy] at hstep
      cases hstep
      cases a <;>
        simp [work, threadWork, barriersPassed, Function.update, hpc, Pc.waiting] <;> omega
    · rw [threadStep_top_ge lib a c hpc hy] at hstep
      cases hstep
      cases a <;>
        simp [work, threadWork, barriersPassed, Function.update, hpc, Pc.waiting] <;> omega
  | compute =>
    rw [threadStep_compute lib a c hpc] at hstep
    cases hstep
    cases a <;>
      simp [work, threadWork, barriersPassed, Function.update, hpc, Pc.waiting] <;> omega
  | commit =>
    rw [threadStep_commit lib a c hpc] at hstep
    cases hstep
    cases a <;>
      simp [work, threadWork, barriersPassed, Function.update, hpc, Pc.waiting] <;> omega
  | observe =>
    rw [threadStep_observe lib a c hpc] at hstep
    cases hstep
    cases a <;>
      simp [work, threadWork, barriersPassed, Function.update, hpc, Pc.waiting] <;> omega
  | waitA =>
    rw [threadStep_blocked lib a c (Or.inl hpc)] at hstep
    cases hstep
  | waitB =>
    rw [threadStep_blocked lib a c (Or.inr (Or.inl hpc))] at hstep
    cases hstep
  | waitC =>
    rw [threadStep_blocked lib a c (Or.inr (Or.inr (Or.inl hpc)))] at hstep
    cases hstep
  | done =>
    rw [threadStep_blocked lib a c (Or.inr (Or.inr (Or.inr hpc)))] at hstep
    cases hstep

/-- Every step of the system is counted once. -/
theorem work_step [LinearOrderedField α] [FloorRing α] (lib : Libm α) (c c' : Config α)
    (hs : Step lib c c') : work c' = work c + 1 := by
  cases hs with
  | thread a _ _ hstep => exact work_thread lib a c c' hstep
  | barrier _ _ hrel => exact work_release c c' hrel

/-- A run of `n` steps is counted `n` times. -/
theorem work_run [LinearOrderedField α] [FloorRing α] (lib : Libm α) (c c' : Config α)
    (n : Nat) (hr : Run lib c n c') : work c' = work c + n := by
  induction hr with
  | refl c => simp
  | step c c1 c2 n hs _ ih =>
    rw [ih, work_step lib c c1 hs]
    push_cast
    ring

end WorkLemmas

section WorkBounds

variable {α : Type}

theorem work_testing_thread (t : Thread) (k : Nat)
    (h : t = threadAt k Pc.top ∨ t = threadAt k Pc.compute ∨ t = threadAt k Pc.waitA) :
    4 * (k : Int) ≤ threadWork t ∧ threadWork t ≤ 4 * (k : Int) + 2 ∧
    barriersPassed t = 3 * (k : Int) ∧ t.pc ≠ Pc.done := by
  rcases h with h | h | h <;> subst h <;>
    simp [threadAt, threadWork, barriersPassed, Pc.waiting] <;> omega

theorem work_leaving_thread (t : Thread)
    (h : t = threadAt 72 Pc.top ∨ t = threadAt 72 Pc.done) :
    ((t.pc = Pc.done ∧ threadWork t = 289) ∨ (t.pc ≠ Pc.done ∧ threadWork t = 288)) ∧
    barriersPassed t = 216 := by
  rcases h with h | h <;> subst h <;>
    simp [threadAt, threadWork, barriersPassed, Pc.waiting]

theorem work_assigning_thread (t : Thread) (k : Nat)
    (h : t = threadAt k Pc.commit ∨ t = threadAt k Pc.waitB) :
    4 * (k : Int) ≤ threadWork t ∧ threadWork t ≤ 4 * (k : Int) + 3 ∧
    barriersPassed t = 3 * (k : Int) + 1 ∧ t.pc ≠ Pc.done := by
  rcases h with h | h <;> subst h <;>
    simp [threadAt, threadWork, barriersPassed, Pc.waiting] <;> omega

theorem work_printing_thread (t : Thread) (k : Nat)
    (h : t = threadAt k Pc.observe ∨ t = threadAt k Pc.waitC) :
    4 * (k : Int) ≤ threadWork t ∧ threadWork t ≤ 4 * (k : Int) + 4 ∧
    barriersPassed t = 3 * (k : Int) + 2 ∧ t.pc ≠ Pc.done := by
  rcases h with h | h <;> subst h <;>
    simp [threadAt, threadWork, barriersPassed, Pc.waiting] <;> omega

/-- In lockstep the count of steps is at most 1372, and it is 1372 exactly
when all four threads have left the loop. -/
theorem Inv_work [LinearOrderedField α] [FloorRing α] (lib : Libm α) (c : Config α)
    (h : Inv lib c) :
    0 ≤ work c ∧ work c ≤ 1372 ∧ (work c = 1372 ↔ ∀ a, (c.threads a).pc = Pc.done) := by
  cases h with
  | testing k hk hg ht =>
    have h1 := work_testing_thread (c.threads Agent.deer) k
      (by rcases ht Agent.deer with h | h | h
          · exact Or.inl h
          · exact Or.inr (Or.inl h)
          · exact Or.inr (Or.inr h.1))
    have h2 := work_testing_thread (c.threads Agent.grain) k
      (by rcases ht Agent.grain with h | h | h
          · exact Or.inl h
          · exact Or.inr (Or.inl h)
          · exact Or.inr (Or.inr h.1))
    have h3 := work_testing_thread (c.threads Agent.watcher) k
      (by rcases ht Agent.watcher with h | h | h
          · exact Or.inl h
          · exact Or.inr (Or.inl h)
          · exact Or.inr (Or.inr h.1))
    have h4 := work_testing_thread (c.threads Agent.myAgent) k
      (by rcases ht Agent.myAgent with h | h | h
          · exact Or.inl h
          · exact Or.inr (Or.inl h)
          · exact Or.inr (Or.inr h.1))
    unfold work
    refine ⟨by omega, by omega,
      ⟨fun hw => by omega, fun hd => absurd (hd Agent.deer) h1.2.2.2⟩⟩
  | leaving hg ht =>
    have h1 := work_leaving_thread (c.threads Agent.deer) (ht Agent.deer)
    have h2 := work_leaving_thread (c.threads Agent.grain) (ht Agent.grain)
    have h3 := work_leaving_thread (c.threads Agent.watcher) (ht Agent.watcher)
    have h4 := work_leaving_thread (c.threads Agent.myAgent) (ht Agent.myAgent)
    unfold work
    rw [h1.2]
    rcases h1.1 with ⟨p1, w1⟩ | ⟨p1, w1⟩ <;>
      rcases h2.1 with ⟨p2, w2⟩ | ⟨p2, w2⟩ <;>
      rcases h3.1 with ⟨p3, w3⟩ | ⟨p3, w3⟩ <;>
      rcases h4.1 with ⟨p4, w4⟩ | ⟨p4, w4⟩ <;>
      rw [w1, w2, w3, w4] <;>
      refine ⟨by norm_num, by norm_num, ⟨fun hw => ?_, fun hd => ?_⟩⟩ <;>
      first
        | (intro a; cases a <;> assumption)
        | exact absurd hw (by norm_num)
        | rfl
        | exact absurd (hd Agent.deer) p1
        | exact absurd (hd Agent.grain) p2
        | exact absurd (hd Agent.watcher) p3
        | exact absurd (hd Agent.myAgent) p4
  | assigning k hk hr ht =>
    have h1 := work_assigning_thread (c.threads Agent.deer) k
      (by rcases ht Agent.deer with h | h
          · exact Or.inl h.1
          · exact Or.inr h.1)
    have h2 := work_assigning_thread (c.threads Agent.grain) k
      (by rcases ht Agent.grain with h | h
          · exact Or.inl h.1
          · exact Or.inr h.1)
    have h3 := work_assigning_thread (c.threads Agent.watcher) k
      (by rcases ht Agent.watcher with h | h
          · exact Or.inl h.1
          · exact Or.inr h.1)
    have h4 := work_assigning_thread (c.threads Agent.myAgent) k
      (by rcases ht Agent.myAgent with h | h
          · exact Or.inl h.1
          · exact Or.inr h.1)
    unfold work
    refine ⟨by omega, by omega,
      ⟨fun hw => by omega, fun hd => absurd (hd Agent.deer) h1.2.2.2⟩⟩
  | printing k hk ht hg =>
    have h1 := work_printing_thread (c.threads Agent.deer) k (ht Agent.deer)
    have h2 := work_printing_thread (c.threads Agent.grain) k (ht Agent.grain)
    have h3 := work_printing_thread (c.threads Agent.watcher) k (ht Agent.watcher)
    have h4 := work_printing_thread (c.threads Agent.myAgent) k (ht Agent.myAgent)
    unfold work
    refine ⟨by omega, by omega,
      ⟨fun hw => by omega, fun hd => absurd (hd Agent.deer) h1.2.2.2⟩⟩

/-- The lockstep invariant holds along every run. -/
theorem Inv_run [LinearOrderedField α] [FloorRing α] (lib : Libm α) (c c' : Config α)
    (n : Nat) (hr : Run lib c n c') (h : Inv lib c) : Inv lib c' := by
  induction hr with
  | refl c => exact h
  | step c c1 c2 n hs _ ih => exact ih (Inv_step lib c c1 h hs)

/-- In lockstep, whatever the schedule did so far, the system can be run to
the end: all four threads leave the loop after exactly the steps that remain
of the 1372. -/
theorem run_to_end [LinearOrderedField α] [FloorRing α] (lib : Libm α) :
    ∀ (n : Nat) (c : Config α), Inv lib c → work c + n = 1372 →
      ∃ c', Run lib c n c' ∧ ∀ a, (c'.threads a).pc = Pc.done := by
  intro n
  induction n with
  | zero =>
    intro c h hw
    have hw0 : work c = 1372 := by simpa using hw
    exact ⟨c, Run.refl c, (Inv_work lib c h).2.2.mp hw0⟩
  | succ n ih =>
    intro c h hw
    have hnot : ¬ ∀ a, (c.threads a).pc = Pc.done := by
      intro hd
      have := (Inv_work lib c h).2.2.mpr hd
      push_cast at hw
      omega
    rcases Inv_progress lib c h with hd | ⟨c1, hs⟩
    · exact absurd hd hnot
    · have hw1 : work c1 + n = 1372 := by
        rw [work_step lib c c1 hs]
        push_cast at hw
        omega
      obtain ⟨c2, hr, hd⟩ := ih c1 (Inv_step lib c c1 h hs) hw1
      exact ⟨c2, Run.step c c1 c2 n hs hr, hd⟩

/-- In lockstep a thread that has left the loop shows 72 bodies entered and 72
arrivals at each barrier. -/
theorem Inv_done_thread [LinearOrderedField α] [FloorRing α] (lib : Libm α) (c : Config α)
    (h : Inv lib c) (a : Agent) (hp : (c.threads a).pc = Pc.done) :
    c.threads a = threadAt 72 Pc.done := by
  obtain ⟨k, _, hth⟩ := Inv_threads lib c h
  have he := ((Inv_done lib c h a hp).2 a).2
  have ha := hth a
  rw [hp] at ha
  rw [ha] at he
  have hk : k = 72 := he
  rw [ha, hk]

end WorkBounds

/-! ## Properties of the program -/

section Properties

variable {α : Type}

/-- C1: for every state (any deer count, zero or negative included, any grain
height, any hunter count) the next deer count computed by `Deer` is at least 1;
and after any number of passes from the starting state the deer count is at
least 1. -/
theorem C1_deer_at_least_one [LinearOrderedField α] [FloorRing α] :
    (∀ s : State α, 1 ≤ Deer s) ∧
    (∀ (lib : Libm α) (k : Nat), 1 ≤ ((tick lib)^[k] (initState lib)).NowNumDeer) := by
  refine ⟨Deer_pos, ?_⟩
  intro lib k
  cases k with
  | zero => simp [initState]
  | succ n =>
    rw [Function.iterate_succ_apply', tick_NowNumDeer]
    exact Deer_pos _

/-- C2, as stated, fails: the cast `(int) NowHeight` is 32 bits wide, so at the
grain height 3000000000 the carrying capacity is `INT_MIN`, not the floor of
the height, and from 5 deer, fewer than the floor, the step goes to 4, not
to 6. -/
theorem C2_capacity_not_floor :
    (0 : ℚ) ≤ 3000000000 ∧ ⌊(3000000000 : ℚ)⌋ = 3000000000 ∧
    carryingCapacity (3000000000 : ℚ) = -2147483648 ∧
    (5 : Int) < ⌊(3000000000 : ℚ)⌋ ∧
    deerMove 5 (carryingCapacity (3000000000 : ℚ)) = 4 ∧
    ¬ deerMove 5 (carryingCapacity (3000000000 : ℚ)) = 5 + 1 := by
  have hf : ⌊(3000000000 : ℚ)⌋ = 3000000000 := Int.floor_ofNat 3000000000
  have hc : carryingCapacity (3000000000 : ℚ) = -2147483648 :=
    toInt_of_large (3000000000 : ℚ) (by norm_num)
  have hm : deerMove 5 (carryingCapacity (3000000000 : ℚ)) = 4 := by
    rw [hc]
    decide
  refine ⟨by norm_num, hf, hc, ?_, hm, ?_⟩
  · rw [hf]
    norm_num
  · rw [hm]
    decide

/-- C2, amended: for every deer count `d` and grain height `h` with
`0 ≤ h < 2 ^ 31`, the carrying capacity used by `Deer` is `⌊h⌋`, and the
capacity-tracking step (the value before the hunter subtraction and the clamp)
is `d + 1` when `d < ⌊h⌋`, `d - 1` when `d > ⌊h⌋` and `d` when `d = ⌊h⌋`; it
differs from `d` by at most 1 and equals the capacity only when `d` was within
1 of it. -/
theorem C2_capacity_tracking [LinearOrderedField α] [FloorRing α] (d : Int) (h : α)
    (hh : 0 ≤ h) (hlt : h < 2147483648) :
    carryingCapacity h = ⌊h⌋ ∧
    (∀ s : State α, s.NowNumDeer = d → s.NowHeight = h →
      Deer s = deerClamp (deerHunt (deerMove d ⌊h⌋) s.NowNumHunters)) ∧
    (d < ⌊h⌋ → deerMove d (carryingCapacity h) = d + 1) ∧
    (d > ⌊h⌋ → deerMove d (carryingCapacity h) = d - 1) ∧
    (d = ⌊h⌋ → deerMove d (carryingCapacity h) = d) ∧
    |deerMove d (carryingCapacity h) - d| ≤ 1 ∧
    (deerMove d (carryingCapacity h) = ⌊h⌋ → |⌊h⌋ - d| ≤ 1) := by
  have hc : carryingCapacity h = ⌊h⌋ := toInt_of_nonneg h hh hlt
  refine ⟨hc, ?_, ?_, ?_, ?_, ?_, ?_⟩
  · intro s hd hs
    unfold Deer
    rw [hd, hs, hc]
  · intro hlt
    rw [hc]
    exact deerMove_lt d _ hlt
  · intro hgt
    rw [hc]
    exact deerMove_gt d _ hgt
  · intro heq
    rw [hc]
    exact deerMove_eq d _ heq
  · exact deerMove_near d _
  · rw [hc]
    exact deerMove_reaches d _

/-- C2 at deer count 1 and grain height 7/2: the capacity is 3 and the step
gives 2, not 3. -/
theorem C2_capacity_tracking_witness :
    (0 : ℚ) ≤ 7 / 2 ∧ (7 / 2 : ℚ) < 2147483648 ∧ carryingCapacity (7 / 2 : ℚ) = 3 ∧
    deerMove 1 (carryingCapacity (7 / 2 : ℚ)) = 2 := by
  have hh : (0 : ℚ) ≤ 7 / 2 := by norm_num
  have hlt : (7 / 2 : ℚ) < 2147483648 := by norm_num
  have hf : ⌊(7 / 2 : ℚ)⌋ = 3 := by
    rw [Int.floor_eq_iff]
    constructor <;> norm_num
  have key := C2_capacity_tracking (1 : Int) (7 / 2 : ℚ) hh hlt
  refine ⟨hh, hlt, ?_, ?_⟩
  · rw [key.1, hf]
  · rw [key.2.2.1 (by rw [hf]; norm_num)]
    norm_num

/-- C3: the hunter count that `MyAgent` computes and commits is 3 in month 8,
4 in month 9, 2 in month 10 and 0 in every other month, whatever the locals
and the other globals hold; two states with the same month get the same
count. -/
theorem C3_hunters_by_month [LinearOrderedField α] [FloorRing α] (lib : Libm α)
    (s : State α) (l : Locals α) :
    (commitStep Agent.myAgent (computeStep lib Agent.myAgent s l) s).NowNumHunters =
      (if s.NowMonth = 8 then 3 else if s.NowMonth = 9 then 4
       else if s.NowMonth = 10 then 2 else 0) ∧
    (tick lib s).NowNumHunters =
      (if s.NowMonth = 8 then 3 else if s.NowMonth = 9 then 4
       else if s.NowMonth = 10 then 2 else 0) ∧
    (∀ t : State α, t.NowMonth = s.NowMonth →
      MyAgent t = MyAgent s ∧ (tick lib t).NowNumHunters = (tick lib s).NowNumHunters) := by
  have hw : ∀ u : State α, (tick lib u).NowNumHunters = MyAgent u :=
    tick_NowNumHunters lib
  refine ⟨huntingSeason_eq _ _, ?_, ?_⟩
  · rw [hw]
    exact huntingSeason_eq _ _
  · intro t ht
    have h : MyAgent t = MyAgent s := by
      unfold MyAgent
      rw [huntingSeason_eq, huntingSeason_eq, ht]
    exact ⟨h, by rw [hw, hw, h]⟩

/-- C4: from month 0 of year `Y` (the other globals arbitrary), `k` clock
advances (by `Watcher` alone, or by `k` whole passes) leave the clock at year
`Y + k / 12`, month `k % 12`; the month goes from 11 to 0, stays in 0..11, the
year goes up by one every 12 passes, and after 72 passes the clock is at
month 0 of year `Y + 6`. -/
theorem C4_clock [LinearOrderedField α] [FloorRing α] (lib : Libm α) (Y : Int) (k : Nat)
    (s : State α) :
    ((Watcher lib)^[k] { s with NowYear := Y, NowMonth := 0 }).NowYear =
      Y + ((k / 12 : Nat) : Int) ∧
    ((Watcher lib)^[k] { s with NowYear := Y, NowMonth := 0 }).NowMonth =
      ((k % 12 : Nat) : Int) ∧
    ((tick lib)^[k] { s with NowYear := Y, NowMonth := 0 }).NowYear =
      Y + ((k / 12 : Nat) : Int) ∧
    ((tick lib)^[k] { s with NowYear := Y, NowMonth := 0 }).NowMonth =
      ((k % 12 : Nat) : Int) ∧
    (0 ≤ ((tick lib)^[k] { s with NowYear := Y, NowMonth := 0 }).NowMonth ∧
      ((tick lib)^[k] { s with NowYear := Y, NowMonth := 0 }).NowMonth ≤ 11) ∧
    ((tick lib)^[k + 12] { s with NowYear := Y, NowMonth := 0 }).NowYear =
      ((tick lib)^[k] { s with NowYear := Y, NowMonth := 0 }).NowYear + 1 ∧
    (Watcher lib { s with NowMonth := 11 }).NowMonth = 0 ∧
    (Watcher lib { s with NowMonth := 11 }).NowYear = s.NowYear + 1 ∧
    ((tick lib)^[72] { s with NowYear := Y, NowMonth := 0 }).NowYear = Y + 6 ∧
    ((tick lib)^[72] { s with NowYear := Y, NowMonth := 0 }).NowMonth = 0 := by
  have hW := clock_iterate (Watcher lib) (Watcher_NowMonth lib) (Watcher_NowYear lib)
    { s with NowYear := Y, NowMonth := 0 } rfl
  have hT := clock_iterate (tick lib) (tick_NowMonth lib) (tick_NowYear lib)
    { s with NowYear := Y, NowMonth := 0 } rfl
  refine ⟨(hW k).2, (hW k).1, (hT k).2, (hT k).1, ?_, ?_, ?_, ?_, ?_, ?_⟩
  · rw [(hT k).1]
    omega
  · rw [(hT (k + 12)).2, (hT k).2]
    have h2 : (k + 12) / 12 = k / 12 + 1 := by omega
    rw [h2]
    simp
    ring
  · rw [Watcher_NowMonth]
    simp
  · rw [Watcher_NowYear]
    simp
  · rw [(hT 72).2]
    norm_num
  · rw [(hT 72).1]
    norm_num

/-- C5: for every state, the next grain height computed by `Grain` is
`max 0 (height + tempFactor * precipFactor * 9 - deerCount * 1)`, with
`tempFactor = exp (-((temperature - 40) / 10)²)` and
`precipFactor = exp (-((precipitation - 10) / 10)²)`, hence non-negative; and
after any number of passes from the starting state the grain height is
non-negative. The number type is any ordered field, the reals included. -/
theorem C5_grain_nonneg [LinearOrderedField α] [FloorRing α] (lib : Libm α) :
    (∀ s : State α,
      Grain lib s =
        max 0 (s.NowHeight +
          lib.exp (-((s.NowTemp - 40) / 10) ^ 2) * lib.exp (-((s.NowPrecip - 10) / 10) ^ 2) * 9 -
          (s.NowNumDeer : α) * 1) ∧
      0 ≤ Grain lib s) ∧
    (∀ k : Nat, 0 ≤ ((tick lib)^[k] (initState lib)).NowHeight) := by
  refine ⟨fun s => ⟨Grain_eq_max lib s, Grain_nonneg lib s⟩, ?_⟩
  intro k
  cases k with
  | zero => simp [initState]
  | succ n =>
    rw [Function.iterate_succ_apply', tick_NowHeight]
    exact Grain_nonneg lib _

/-- C6: evaluation of the first pass over the reals, with the C library's
`exp`, `cos`, `sin`, `π` and any generator. The grain height after the first
pass is `3 + exp (-((0 - 40) / 10)²) * exp (-((0 - 10) / 10)²) * 9 - 1 * 1`: the
factors are computed from the temperature 0 and precipitation 0 that the
globals hold when the threads start, whatever the generator returns. This is
strictly less than the value computed from the month-0 seasonal expectations
`60 - 20 cos 15°` and `7 + 6 sin 15°`, which is what the first pass gives once
those two values are stored in `NowTemp` and `NowPrecip` beforehand. -/
theorem C6_first_pass_height (rand_r : Nat → Nat × Nat) (RAND_MAX : Nat) :
    let lib : Libm ℝ := ⟨Real.exp, Real.cos, Real.sin, Real.pi, rand_r, RAND_MAX⟩
    (tick lib (initState lib)).NowHeight =
      3 + Real.exp (-((0 - 40) / 10) ^ 2) * Real.exp (-((0 - 10) / 10) ^ 2) * 9 - 1 * 1 ∧
    (tick lib (initState lib)).NowHeight <
      3 + Real.exp (-((60 - 20 * Real.cos (15 * (Real.pi / 180)) - 40) / 10) ^ 2) *
          Real.exp (-((7 + 6 * Real.sin (15 * (Real.pi / 180)) - 10) / 10) ^ 2) * 9 - 1 * 1 ∧
    (tick lib { initState lib with
        NowTemp := 60 - 20 * Real.cos (15 * (Real.pi / 180)),
        NowPrecip := 7 + 6 * Real.sin (15 * (Real.pi / 180)) }).NowHeight =
      3 + Real.exp (-((60 - 20 * Real.cos (15 * (Real.pi / 180)) - 40) / 10) ^ 2) *
          Real.exp (-((7 + 6 * Real.sin (15 * (Real.pi / 180)) - 10) / 10) ^ 2) * 9 - 1 * 1 := by
  intro lib
  have hseed : (tick lib { initState lib with
        NowTemp := 60 - 20 * Real.cos (15 * (Real.pi / 180)),
        NowPrecip := 7 + 6 * Real.sin (15 * (Real.pi / 180)) }).NowHeight =
      3 + Real.exp (-((60 - 20 * Real.cos (15 * (Real.pi / 180)) - 40) / 10) ^ 2) *
          Real.exp (-((7 + 6 * Real.sin (15 * (Real.pi / 180)) - 10) / 10) ^ 2) * 9 - 1 * 1 := by
    rw [tick_NowHeight, Grain_eq_max]
    have h1 := Real.exp_pos (-((60 - 20 * Real.cos (15 * (Real.pi / 180)) - 40) / 10) ^ 2)
    have h2 := Real.exp_pos (-((7 + 6 * Real.sin (15 * (Real.pi / 180)) - 10) / 10) ^ 2)
    have hpos : (0 : ℝ) ≤
        3 + Real.exp (-((60 - 20 * Real.cos (15 * (Real.pi / 180)) - 40) / 10) ^ 2) *
          Real.exp (-((7 + 6 * Real.sin (15 * (Real.pi / 180)) - 10) / 10) ^ 2) * 9 - 1 * 1 := by
      nlinarith [mul_pos h1 h2]
    simpa [initState, lib] using hpos
  have hcode : (tick lib (initState lib)).NowHeight =
      3 + Real.exp (-((0 - 40) / 10) ^ 2) * Real.exp (-((0 - 10) / 10) ^ 2) * 9 - 1 * 1 := by
    rw [tick_NowHeight, Grain_eq_max]
    have hpos : (0 : ℝ) ≤ 3 + Real.exp (-((0 - 40) / 10) ^ 2) *
        Real.exp (-((0 - 10) / 10) ^ 2) * 9 - 1 * 1 := by
      have := Real.exp_pos (-((0 - 40 : ℝ) / 10) ^ 2)
      have := Real.exp_pos (-((0 - 10 : ℝ) / 10) ^ 2)
      nlinarith [mul_pos ‹0 < Real.exp (-((0 - 40 : ℝ) / 10) ^ 2)›
        ‹0 < Real.exp (-((0 - 10 : ℝ) / 10) ^ 2)›]
    simpa [initState, lib] using hpos
  refine ⟨hcode, ?_, hseed⟩
  rw [hcode]
  have hc1 := Real.neg_one_le_cos (15 * (Real.pi / 180))
  have hc2 := Real.cos_le_one (15 * (Real.pi / 180))
  have hs1 := Real.neg_one_le_sin (15 * (Real.pi / 180))
  have hs2 := Real.sin_le_one (15 * (Real.pi / 180))
  have hexp : Real.exp (-((0 - 40) / 10) ^ 2) * Real.exp (-((0 - 10) / 10) ^ 2) <
      Real.exp (-((60 - 20 * Real.cos (15 * (Real.pi / 180)) - 40) / 10) ^ 2) *
      Real.exp (-((7 + 6 * Real.sin (15 * (Real.pi / 180)) - 10) / 10) ^ 2) := by
    rw [← Real.exp_add, ← Real.exp_add, Real.exp_lt_exp]
    nlinarith
  linarith

/-- C7: for every state `s`, whatever the locals hold on entry and in
whatever order the four threads run their compute parts (`o1`) and their
assignment parts (`o2`), the state after the two phases is the simultaneous
update of `s`: deer count `Deer s`, grain height `Grain s`, hunter count
`MyAgent s`, everything else as in `s`. `Deer` reads only the deer count,
grain height and hunter count of `s`, `Grain` only its height, deer count,
temperature and precipitation, `MyAgent` only its month. With the printing
part in any order `o3`, the whole pass is `tick`. -/
theorem C7_simultaneous_update [LinearOrderedField α] [FloorRing α] (lib : Libm α)
    (s : State α) (l : Locals α)
    (o1 o2 o3 : List Agent) (h1 : o1.Perm agents) (h2 : o2.Perm agents)
    (h3 : o3.Perm agents) :
    computeCommit lib o1 o2 l s =
      { s with NowNumDeer := Deer s, NowHeight := Grain lib s, NowNumHunters := MyAgent s } ∧
    observePhase lib o3 (computeCommit lib o1 o2 l s) = tick lib s ∧
    (∀ t : State α, t.NowNumDeer = s.NowNumDeer → t.NowHeight = s.NowHeight →
      t.NowNumHunters = s.NowNumHunters → Deer t = Deer s) ∧
    (∀ t : State α, t.NowHeight = s.NowHeight → t.NowNumDeer = s.NowNumDeer →
      t.NowTemp = s.NowTemp → t.NowPrecip = s.NowPrecip → Grain lib t = Grain lib s) ∧
    (∀ t : State α, t.NowMonth = s.NowMonth → MyAgent t = MyAgent s) := by
  have hcc : computeCommit lib o1 o2 l s =
      { s with NowNumDeer := Deer s, NowHeight := Grain lib s,
               NowNumHunters := MyAgent s } := by
    unfold computeCommit
    rw [computePhase_perm lib s o1 h1, commitPhase_perm _ o2 h2]
    rfl
  refine ⟨hcc, ?_, ?_, ?_, ?_⟩
  · rw [observeStep_comm lib o3 h3, hcc, tick_eq]
  · intro t hd hh hn
    unfold Deer
    rw [hd, hh, hn]
  · intro t hh hd ht hp
    unfold Grain
    rw [hh, hd, ht, hp]
  · intro t hm
    unfold MyAgent
    rw [huntingSeason_eq, huntingSeason_eq, hm]

/-- C7 on the starting state over the rationals, compute parts in reverse
source order, assignment parts and printing parts in two other orders. -/
theorem C7_simultaneous_update_witness :
    [Agent.myAgent, Agent.watcher, Agent.grain, Agent.deer].Perm agents ∧
    [Agent.grain, Agent.myAgent, Agent.deer, Agent.watcher].Perm agents ∧
    [Agent.watcher, Agent.deer, Agent.myAgent, Agent.grain].Perm agents ∧
    computeCommit sampleLib [Agent.myAgent, Agent.watcher, Agent.grain, Agent.deer]
        [Agent.grain, Agent.myAgent, Agent.deer, Agent.watcher]
        { nextNumDeer := 40, nextHeight := 50, nextNumHunters := 60 } (initState sampleLib) =
      { initState sampleLib with
        NowNumDeer := Deer (initState sampleLib),
        NowHeight := Grain sampleLib (initState sampleLib),
        NowNumHunters := MyAgent (initState sampleLib) } :=
  ⟨by decide, by decide, by decide,
    (C7_simultaneous_update sampleLib (initState sampleLib)
      { nextNumDeer := 40, nextHeight := 50, nextNumHunters := 60 }
      [Agent.myAgent, Agent.watcher, Agent.grain, Agent.deer]
      [Agent.grain, Agent.myAgent, Agent.deer, Agent.watcher]
      [Agent.watcher, Agent.deer, Agent.myAgent, Agent.grain]
      (by decide) (by decide) (by decide)).1⟩

/-- C8: each assignment part writes one global and leaves the others as they
were: `Deer` writes only `NowNumDeer`, `Grain` only `NowHeight`, `MyAgent`
only `NowNumHunters`, `Watcher` nothing; in the printing part `Watcher` leaves
`NowNumDeer`, `NowHeight` and `NowNumHunters` as they were (it writes the
clock, the weather and the seed) and the other three threads write nothing. -/
theorem C8_disjoint_writes [LinearOrderedField α] (lib : Libm α) (l : Locals α) (s : State α) :
    ((commitStep Agent.deer l s).NowNumDeer = l.nextNumDeer ∧
      (commitStep Agent.deer l s).NowYear = s.NowYear ∧
      (commitStep Agent.deer l s).NowMonth = s.NowMonth ∧
      (commitStep Agent.deer l s).NowPrecip = s.NowPrecip ∧
      (commitStep Agent.deer l s).NowTemp = s.NowTemp ∧
      (commitStep Agent.deer l s).NowHeight = s.NowHeight ∧
      (commitStep Agent.deer l s).NowNumHunters = s.NowNumHunters ∧
      (commitStep Agent.deer l s).seed = s.seed) ∧
    ((commitStep Agent.grain l s).NowHeight = l.nextHeight ∧
      (commitStep Agent.grain l s).NowYear = s.NowYear ∧
      (commitStep Agent.grain l s).NowMonth = s.NowMonth ∧
      (commitStep Agent.grain l s).NowPrecip = s.NowPrecip ∧
      (commitStep Agent.grain l s).NowTemp = s.NowTemp ∧
      (commitStep Agent.grain l s).NowNumDeer = s.NowNumDeer ∧
      (commitStep Agent.grain l s).NowNumHunters = s.NowNumHunters ∧
      (commitStep Agent.grain l s).seed = s.seed) ∧
    ((commitStep Agent.myAgent l s).NowNumHunters = l.nextNumHunters ∧
      (commitStep Agent.myAgent l s).NowYear = s.NowYear ∧
      (commitStep Agent.myAgent l s).NowMonth = s.NowMonth ∧
      (commitStep Agent.myAgent l s).NowPrecip = s.NowPrecip ∧
      (commitStep Agent.myAgent l s).NowTemp = s.NowTemp ∧
      (commitStep Agent.myAgent l s).NowHeight = s.NowHeight ∧
      (commitStep Agent.myAgent l s).NowNumDeer = s.NowNumDeer ∧
      (commitStep Agent.myAgent l s).seed = s.seed) ∧
    commitStep Agent.watcher l s = s ∧
    ((observeStep lib Agent.watcher s).NowNumDeer = s.NowNumDeer ∧
      (observeStep lib Agent.watcher s).NowHeight = s.NowHeight ∧
      (observeStep lib Agent.watcher s).NowNumHunters = s.NowNumHunters) ∧
    (observeStep lib Agent.deer s = s ∧ observeStep lib Agent.grain s = s ∧
      observeStep lib Agent.myAgent s = s) := by
  refine ⟨⟨rfl, rfl, rfl, rfl, rfl, rfl, rfl, rfl⟩,
    ⟨rfl, rfl, rfl, rfl, rfl, rfl, rfl, rfl⟩,
    ⟨rfl, rfl, rfl, rfl, rfl, rfl, rfl, rfl⟩, rfl, ⟨?_, ?_, ?_⟩, ⟨rfl, rfl, rfl⟩⟩
  · exact Watcher_NowNumDeer lib s
  · exact Watcher_NowHeight lib s
  · exact Watcher_NowNumHunters lib s

/-- C9: from the starting state the loop `while (NowYear < 2027)` ends: with
any fuel of at least 72 it makes exactly 72 passes and stops in the state
after 72 passes, whose clock is year 2027, month 0; with less fuel it has not
ended. At every pass, from any state, the clock `(NowYear, NowMonth)` strictly
increases in lexicographic order. -/
theorem C9_terminates [LinearOrderedField α] [FloorRing α] (lib : Libm α) (n : Nat) :
    simulate lib (72 + n) (initState lib) = some ((tick lib)^[72] (initState lib), 72) ∧
    ((tick lib)^[72] (initState lib)).NowYear = 2027 ∧
    ((tick lib)^[72] (initState lib)).NowMonth = 0 ∧
    (∀ fuel : Fin 72, simulate lib fuel (initState lib) = none) ∧
    (∀ s : State α, s.NowYear < (tick lib s).NowYear ∨
      (s.NowYear = (tick lib s).NowYear ∧ s.NowMonth < (tick lib s).NowMonth)) := by
  refine ⟨simulate_from lib n 72 0 rfl, ?_, ?_, ?_, ?_⟩
  · rw [year_after]
    norm_num
  · rw [month_after]
    norm_num
  · intro fuel
    exact simulate_short lib fuel 0 (by have := fuel.isLt; omega)
  · intro s
    rw [tick_NowYear, tick_NowMonth]
    by_cases h : s.NowMonth = 11
    · left
      rw [if_pos h]
      omega
    · right
      rw [if_neg h, if_neg h]
      exact ⟨rfl, by omega⟩

/-- C10: in every configuration the four concurrent threads can reach, under
every schedule: (1) every thread shows the counters of its place in one and
the same pass, so at its test and after the loop it has arrived at each of the
three barriers exactly once per loop body entered; (2) a thread at its test
reads the globals left by the passes it has made, so the tests of the four
threads for the same pass see the same `NowYear`; (3) the numbers of bodies
entered never differ by more than the pass under way; (4) once a thread has
left the loop, the globals are those after 72 passes and every thread is at
its test or has left, each with 72 bodies entered; (5) a step changes the clock
only if it is the printing part of `Watcher`; (6) the system is never stuck
before all four threads have left the loop; (7) every step, a barrier release
included, advances the count of steps made by exactly one, the count is at
most `1372 = 72 * 19 + 4`, and it is 1372 exactly when all four threads have
left the loop; (8) every run from the configuration makes at most the steps
that remain and can go on until it has made them all; (9) a run of exactly
the remaining steps exists, and it ends with all four threads out of the loop,
each with 72 bodies entered and 72 arrivals at each of the three barriers, the
globals being those after 72 passes; the count is 0 at the start, so every
schedule makes 72 whole passes in 1372 steps. -/
theorem C10_lockstep [LinearOrderedField α] [FloorRing α] (lib : Libm α) (l : Locals α)
    (c : Config α) (hc : Reach lib l c) :
    (∃ k, k ≤ 72 ∧ ∀ a, c.threads a = threadAt k (c.threads a).pc) ∧
    (∀ a, (c.threads a).pc = Pc.top ∨ (c.threads a).pc = Pc.done →
      (c.threads a).arrivedA = (c.threads a).entered ∧
      (c.threads a).arrivedB = (c.threads a).entered ∧
      (c.threads a).arrivedC = (c.threads a).entered) ∧
    (∀ a, (c.threads a).pc = Pc.top →
      c.globals = (tick lib)^[(c.threads a).entered] (initState lib)) ∧
    (∀ a b, (c.threads a).entered ≤ (c.threads b).entered + 1) ∧
    (∀ a, (c.threads a).pc = Pc.done →
      c.globals = (tick lib)^[72] (initState lib) ∧
      ∀ b, ((c.threads b).pc = Pc.top ∨ (c.threads b).pc = Pc.done) ∧
        (c.threads b).entered = 72) ∧
    (∀ c', Step lib c c' →
      (c'.globals.NowYear = c.globals.NowYear ∧ c'.globals.NowMonth = c.globals.NowMonth) ∨
      (c.threads Agent.watcher).pc = Pc.observe) ∧
    ((∀ a, (c.threads a).pc = Pc.done) ∨ ∃ c', Step lib c c') ∧
    (∀ c', Step lib c c' → work c' = work c + 1) ∧
    (0 ≤ work c ∧ work c ≤ 1372 ∧ (work c = 1372 ↔ ∀ a, (c.threads a).pc = Pc.done)) ∧
    (∀ n c', Run lib c n c' →
      work c' = work c + n ∧ work c + n ≤ 1372 ∧
      ((∀ a, (c'.threads a).pc = Pc.done) ∨ ∃ c'', Step lib c' c'')) ∧
    (∃ (n : Nat) (c' : Config α), work c + (n : Int) = 1372 ∧ Run lib c n c' ∧
      (∀ a, c'.threads a = threadAt 72 Pc.done) ∧
      c'.globals = (tick lib)^[72] (initState lib)) ∧
    work (initConfig lib l) = 0 := by
  have hinv : Inv lib c := Inv_of_Reach lib l c hc
  obtain ⟨k, hk, hth⟩ := Inv_threads lib c hinv
  have hwork := Inv_work lib c hinv
  refine ⟨⟨k, hk, hth⟩, ?_, ?_, ?_, ?_, ?_, Inv_progress lib c hinv, work_step lib c, hwork,
    ?_, ?_, rfl⟩
  rotate_left 5
  · intro n c' hr
    have hinv' := Inv_run lib c c' n hr hinv
    have hw := work_run lib c c' n hr
    refine ⟨hw, ?_, Inv_progress lib c' hinv'⟩
    rw [← hw]
    exact (Inv_work lib c' hinv').2.1
  · have hn : work c + ((1372 - work c).toNat : Int) = 1372 := by
      rw [Int.toNat_of_nonneg (by linarith [hwork.2.1])]
      ring
    obtain ⟨c', hr, hd⟩ := run_to_end lib (1372 - work c).toNat c hinv hn
    have hinv' := Inv_run lib c c' _ hr hinv
    exact ⟨_, c', hn, hr, fun a => Inv_done_thread lib c' hinv' a (hd a),
      (Inv_done lib c' hinv' Agent.deer (hd Agent.deer)).1⟩
  · intro a ha
    rw [hth a]
    exact threadAt_arrived k _ ha
  · intro a ha
    exact Inv_top lib c hinv a ha
  · intro a b
    have h1 := (threadAt_entered k (c.threads a).pc).2
    have h2 := (threadAt_entered k (c.threads b).pc).1
    rw [← hth a] at h1
    rw [← hth b] at h2
    omega
  · intro a ha
    exact Inv_done lib c hinv a ha
  · intro c' hs
    exact clock_frame lib c c' hs

/-- C10 on the configuration that the source-order scheduler reaches in 30
steps from the start, over the rationals. -/
theorem C10_lockstep_witness :
    Reach sampleLib ⟨7, 8, 9⟩
      (runSchedule sampleLib 30 (initConfig sampleLib ⟨7, 8, 9⟩)) ∧
    ∀ a b,
      ((runSchedule sampleLib 30 (initConfig sampleLib ⟨7, 8, 9⟩)).threads a).entered ≤
      ((runSchedule sampleLib 30 (initConfig sampleLib ⟨7, 8, 9⟩)).threads b).entered + 1 :=
  ⟨Reach_runSchedule sampleLib ⟨7, 8, 9⟩ 30 _ Reach.start,
    (C10_lockstep sampleLib ⟨7, 8, 9⟩ _
      (Reach_runSchedule sampleLib ⟨7, 8, 9⟩ 30 _ Reach.start)).2.2.2.1⟩

/-- C11: for every raw draw `r ≤ RAND_MAX` and every `low ≤ high`, the float
`Ranf` returns `low + r * (high - low) / RAND_MAX`, which lies in
`[low, high]`; it is `low` when `r = 0` and, `RAND_MAX` being positive, `high`
when `r = RAND_MAX`. Exact arithmetic in any ordered field, the reals
included. -/
theorem C11_Ranf_in_range [LinearOrderedField α] (lib : Libm α) (seedp : Nat) (low high : α)
    (h : low ≤ high) (hr : (lib.rand_r seedp).1 ≤ lib.RAND_MAX) :
    (Ranf lib seedp low high).1 =
      low + ((lib.rand_r seedp).1 : α) * (high - low) / (lib.RAND_MAX : α) ∧
    low ≤ (Ranf lib seedp low high).1 ∧
    (Ranf lib seedp low high).1 ≤ high ∧
    ((lib.rand_r seedp).1 = 0 → (Ranf lib seedp low high).1 = low) ∧
    (0 < lib.RAND_MAX → (lib.rand_r seedp).1 = lib.RAND_MAX →
      (Ranf lib seedp low high).1 = high) := by
  have hm := Ranf_mem lib seedp low high h hr
  refine ⟨rfl, hm.1, hm.2, ?_, ?_⟩
  · intro h0
    rw [Ranf_val, h0]
    simp
  · intro hpos hmax
    have hne : (lib.RAND_MAX : α) ≠ 0 := by
      have : (0 : α) < (lib.RAND_MAX : α) := Nat.cast_pos.mpr hpos
      exact ne_of_gt this
    rw [Ranf_val, hmax, mul_div_assoc, mul_div_cancel₀ _ hne]
    ring

/-- C11 over the rationals: with `RAND_MAX = 7` and the raw draw 3 the value
drawn from `[-10, 10]` is `-10 / 7`, inside the range. -/
theorem C11_Ranf_in_range_witness :
    (-10 : ℚ) ≤ 10 ∧ (sampleLib.rand_r 0).1 ≤ sampleLib.RAND_MAX ∧
    (Ranf sampleLib 0 (-10 : ℚ) 10).1 = -10 / 7 ∧
    (-10 : ℚ) ≤ (Ranf sampleLib 0 (-10 : ℚ) 10).1 ∧
    (Ranf sampleLib 0 (-10 : ℚ) 10).1 ≤ 10 := by
  have hlow : (-10 : ℚ) ≤ 10 := by norm_num
  have hr : (sampleLib.rand_r 0).1 ≤ sampleLib.RAND_MAX := by decide
  have key := C11_Ranf_in_range sampleLib 0 (-10 : ℚ) 10 hlow hr
  refine ⟨hlow, hr, ?_, key.2.1, key.2.2.1⟩
  rw [key.1]
  norm_num [sampleLib]



/-- C12: evaluation of the int `Ranf` in float arithmetic at two inputs with
`ilow ≤ ihigh` and a raw draw of at most `RAND_MAX = 2 ^ 31 - 1`. On `[-2, -1]`
with the raw draw `3 * 2 ^ 29` it returns 0, above `ihigh`: the cast truncates
toward zero, so a float in `(-1, 0)` becomes 0. On `[0, 2048]` with the raw
draw `RAND_MAX` it returns 2049, above `ihigh`: `2048 + 0.9999f` rounds to
2049. -/
theorem C12_Ranf_int_range :
    ((-2 : Int) ≤ -1 ∧
      ((drawLib 1610612736).rand_r 0).1 ≤ (drawLib 1610612736).RAND_MAX ∧
      (Ranf_int (drawLib 1610612736) 0 (-2) (-1)).1 = 0 ∧
      ¬ (Ranf_int (drawLib 1610612736) 0 (-2) (-1)).1 ≤ -1) ∧
    ((0 : Int) ≤ 2048 ∧
      ((drawLib 2147483647).rand_r 0).1 ≤ (drawLib 2147483647).RAND_MAX ∧
      (Ranf_int (drawLib 2147483647) 0 0 2048).1 = 2049 ∧
      ¬ (Ranf_int (drawLib 2147483647) 0 0 2048).1 ≤ 2048) := by
  refine ⟨⟨by decide, by decide, Ranf_int_minus_two_minus_one.2, ?_⟩,
    ⟨by decide, by decide, Ranf_int_zero_2048.2, ?_⟩⟩
  · rw [Ranf_int_minus_two_minus_one.2]
    decide
  · rw [Ranf_int_zero_2048.2]
    decide

/-- C13: for every state and every generator (so every pair of draws), the
precipitation left by the printing part of `Watcher` is
`max 0 (7 + 6 sin angle + draw)`, hence non-negative; the starting
precipitation is 0, so the precipitation is non-negative after any number of
passes. -/
theorem C13_precip_nonneg [LinearOrderedField α] [FloorRing α] (lib : Libm α) :
    (∀ s : State α,
      (Watcher lib s).NowPrecip =
        max 0
          (7 + 6 * lib.sin ((30 * ((Watcher lib s).NowMonth : α) + 15) * (lib.M_PI / 180)) +
            (Ranf lib (Ranf lib s.seed (-10) 10).2 (-2) 2).1) ∧
      0 ≤ (Watcher lib s).NowPrecip ∧ 0 ≤ (tick lib s).NowPrecip) ∧
    (initState lib).NowPrecip = 0 ∧
    (∀ k : Nat, 0 ≤ ((tick lib)^[k] (initState lib)).NowPrecip) := by
  refine ⟨fun s => ⟨Watcher_NowPrecip lib s, Watcher_NowPrecip_nonneg lib s,
    tick_NowPrecip_nonneg lib s⟩, rfl, ?_⟩
  intro k
  cases k with
  | zero => exact le_of_eq rfl
  | succ n =>
    rw [Function.iterate_succ_apply']
    exact tick_NowPrecip_nonneg lib _

/-- C14, as stated, fails: with the sample generator the seed that the first
printing part of `Watcher` finds is 3, not the initial 0, because the
initialiser of the global `x` (line 63) has drawn once before `main`. -/
theorem C14_first_seed_not_initial :
    (computeCommit sampleLib agents agents (declaredLocals (initState sampleLib))
      (initState sampleLib)).seed = 3 ∧
    ¬ (computeCommit sampleLib agents agents (declaredLocals (initState sampleLib))
      (initState sampleLib)).seed = 0 := by
  have h : (computeCommit sampleLib agents agents (declaredLocals (initState sampleLib))
      (initState sampleLib)).seed = 3 := by
    unfold computeCommit
    rw [commitPhase_seed]
    rfl
  exact ⟨h, by rw [h]; decide⟩

/-- C14, amended: no compute part touches a global, no assignment part and no
printing part of `Deer`, `Grain` or `MyAgent` changes the seed, and in the
concurrent system a step changes the seed only if it is the printing part of
`Watcher`; the seed when the threads start, and so the one the first printing
part finds, is the one left by one draw from the initial seed 0 (the
initialiser of `x`); each printing part of `Watcher` makes exactly two draws,
the first for the temperature and the second, from the seed left by the
first, for the precipitation; after `k` passes the seed is the one left by
`1 + 2 k` draws. -/
theorem C14_seed_draws [LinearOrderedField α] [FloorRing α] (lib : Libm α) (s : State α)
    (l : Locals α) :
    (∀ a, (commitStep a l s).seed = s.seed) ∧
    ((observeStep lib Agent.deer s).seed = s.seed ∧
      (observeStep lib Agent.grain s).seed = s.seed ∧
      (observeStep lib Agent.myAgent s).seed = s.seed) ∧
    (∀ o1 o2 : List Agent, (computeCommit lib o1 o2 l s).seed = s.seed) ∧
    (∀ c c' : Config α, Step lib c c' →
      c'.globals.seed = c.globals.seed ∨ (c.threads Agent.watcher).pc = Pc.observe) ∧
    (initState lib).seed = (lib.rand_r 0).2 ∧
    (computeCommit lib agents agents (declaredLocals (initState lib)) (initState lib)).seed =
      (lib.rand_r 0).2 ∧
    (Watcher lib s).seed = (lib.rand_r (lib.rand_r s.seed).2).2 ∧
    (Watcher lib s).NowTemp =
      60 - 20 * lib.cos ((30 * ((Watcher lib s).NowMonth : α) + 15) * (lib.M_PI / 180)) +
        (-10 + ((lib.rand_r s.seed).1 : α) * (10 - -10) / (lib.RAND_MAX : α)) ∧
    (Watcher lib s).NowPrecip =
      max 0
        (7 + 6 * lib.sin ((30 * ((Watcher lib s).NowMonth : α) + 15) * (lib.M_PI / 180)) +
          (-2 + ((lib.rand_r (lib.rand_r s.seed).2).1 : α) * (2 - -2) / (lib.RAND_MAX : α))) ∧
    (∀ k : Nat, ((tick lib)^[k] (initState lib)).seed =
      (fun n => (lib.rand_r (lib.rand_r n).2).2)^[k] (lib.rand_r 0).2) := by
  refine ⟨fun a => commitStep_seed a l s, ⟨rfl, rfl, rfl⟩, ?_, seed_frame lib, rfl, ?_,
    Watcher_seed lib s, ?_, ?_, seed_after lib⟩
  · intro o1 o2
    unfold computeCommit
    rw [commitPhase_seed]
  · unfold computeCommit
    rw [commitPhase_seed]
    rfl
  · rw [Watcher_NowTemp, Ranf_val]
  · rw [Watcher_NowPrecip, Ranf_val, Ranf_seed]

/-- C16: for every state, with a generator whose raw draws are at most
`RAND_MAX` and a sine that is at least -1, the printing part of `Watcher`
leaves the weather of the month `m'` it has just advanced to: with
`angle = (30 m' + 15) π / 180`, the temperature is `60 - 20 cos angle + jt` and
the precipitation `max 0 (7 + 6 sin angle + jp)`, where `jt ∈ [-10, 10]` is
drawn from the seed found and `jp ∈ [-2, 2]` from the seed left by that draw;
when `jt = 0` the temperature is `60 - 20 cos angle` and when `jp = 0` the
precipitation is `7 + 6 sin angle`. -/
theorem C16_weather_of_next_month [LinearOrderedField α] (lib : Libm α) (s : State α)
    (hr : ∀ n, (lib.rand_r n).1 ≤ lib.RAND_MAX) (hsin : ∀ x, -1 ≤ lib.sin x) :
    (Watcher lib s).NowMonth = (if s.NowMonth = 11 then 0 else s.NowMonth + 1) ∧
    (Watcher lib s).NowTemp =
      60 - 20 * lib.cos ((30 * ((Watcher lib s).NowMonth : α) + 15) * (lib.M_PI / 180)) +
        (Ranf lib s.seed (-10) 10).1 ∧
    (Watcher lib s).NowPrecip =
      max 0
        (7 + 6 * lib.sin ((30 * ((Watcher lib s).NowMonth : α) + 15) * (lib.M_PI / 180)) +
          (Ranf lib (Ranf lib s.seed (-10) 10).2 (-2) 2).1) ∧
    (-10 ≤ (Ranf lib s.seed (-10) 10).1 ∧ (Ranf lib s.seed (-10) 10).1 ≤ 10) ∧
    (-2 ≤ (Ranf lib (Ranf lib s.seed (-10) 10).2 (-2) 2).1 ∧
      (Ranf lib (Ranf lib s.seed (-10) 10).2 (-2) 2).1 ≤ 2) ∧
    ((Ranf lib s.seed (-10) 10).1 = 0 →
      (Watcher lib s).NowTemp =
        60 - 20 * lib.cos ((30 * ((Watcher lib s).NowMonth : α) + 15) * (lib.M_PI / 180))) ∧
    ((Ranf lib (Ranf lib s.seed (-10) 10).2 (-2) 2).1 = 0 →
      (Watcher lib s).NowPrecip =
        7 + 6 * lib.sin ((30 * ((Watcher lib s).NowMonth : α) + 15) * (lib.M_PI / 180))) := by
  refine ⟨Watcher_NowMonth lib s, Watcher_NowTemp lib s, Watcher_NowPrecip lib s,
    Ranf_mem lib _ _ _ (by norm_num) (hr _), Ranf_mem lib _ _ _ (by norm_num) (hr _), ?_, ?_⟩
  · intro h0
    rw [Watcher_NowTemp, h0, add_zero]
  · intro h0
    rw [Watcher_NowPrecip, h0, add_zero]
    apply max_eq_right
    linarith [hsin ((30 * ((Watcher lib s).NowMonth : α) + 15) * (lib.M_PI / 180))]

/-- C16 on the starting state over the rationals: the month becomes 1, and
both draws are within their ranges. -/
theorem C16_weather_of_next_month_witness :
    (∀ n, (sampleLib.rand_r n).1 ≤ sampleLib.RAND_MAX) ∧
    (∀ x, -1 ≤ sampleLib.sin x) ∧
    (Watcher sampleLib (initState sampleLib)).NowMonth = 1 ∧
    (-10 ≤ (Ranf sampleLib (initState sampleLib).seed (-10 : ℚ) 10).1 ∧
      (Ranf sampleLib (initState sampleLib).seed (-10 : ℚ) 10).1 ≤ 10) := by
  have hr : ∀ n, (sampleLib.rand_r n).1 ≤ sampleLib.RAND_MAX := by
    intro n
    show (5 * n + 3) % 8 ≤ 7
    omega
  have hsin : ∀ x, -1 ≤ sampleLib.sin x := by
    intro x
    show (-1 : ℚ) ≤ 0
    norm_num
  have key := C16_weather_of_next_month sampleLib (initState sampleLib) hr hsin
  refine ⟨hr, hsin, ?_, key.2.2.2.1⟩
  rw [key.1]
  rfl

/-- C17: from the starting state, whatever the library and generator, and
whatever temperature, precipitation and seed the globals hold, after the first
pass the deer count is 2 (the carrying capacity is 3, and the count moves one
step from 1, not to 3) and the hunter count is 0. -/
theorem C17_first_pass_deer_hunters [LinearOrderedField α] [FloorRing α] (lib : Libm α)
    (t p : α) (sd : Nat) :
    carryingCapacity (initState lib).NowHeight = 3 ∧
    (tick lib (initState lib)).NowNumDeer = 2 ∧
    (tick lib (initState lib)).NowNumHunters = 0 ∧
    (tick lib { initState lib with NowTemp := t, NowPrecip := p, seed := sd }).NowNumDeer = 2 ∧
    (tick lib { initState lib with NowTemp := t, NowPrecip := p, seed := sd }).NowNumHunters =
      0 := by
  have hcap : carryingCapacity (initState lib).NowHeight = 3 := carryingCapacity_three
  have hdeer : ∀ s : State α, s.NowNumDeer = 1 → s.NowHeight = 3 → s.NowNumHunters = 0 →
      Deer s = 2 := by
    intro s h1 h2 h3
    unfold Deer
    rw [h1, h2, h3, carryingCapacity_three]
    rfl
  refine ⟨hcap, ?_, ?_, ?_, ?_⟩
  · rw [tick_NowNumDeer]
    exact hdeer _ rfl rfl rfl
  · rw [tick_NowNumHunters]
    rfl
  · rw [tick_NowNumDeer]
    exact hdeer _ rfl rfl rfl
  · rw [tick_NowNumHunters]
    rfl

/-- C18: after any number `k` of passes from the starting state the hunter
count is 0, 2, 3 or 4, so its truncated quotient by 5 is 0: the hunter
subtraction leaves every count as it is, the next deer count is
`max 1 (moved)` with `moved` the result of the capacity-tracking step, and the
deer count after the next pass differs from the present one by at most 1. -/
theorem C18_hunters_never_kill [LinearOrderedField α] [FloorRing α] (lib : Libm α)
    (k : Nat) :
    (((tick lib)^[k] (initState lib)).NowNumHunters = 0 ∨
      ((tick lib)^[k] (initState lib)).NowNumHunters = 2 ∨
      ((tick lib)^[k] (initState lib)).NowNumHunters = 3 ∨
      ((tick lib)^[k] (initState lib)).NowNumHunters = 4) ∧
    Int.tdiv ((tick lib)^[k] (initState lib)).NowNumHunters 5 = 0 ∧
    (∀ n : Int, deerHunt n ((tick lib)^[k] (initState lib)).NowNumHunters = n) ∧
    Deer ((tick lib)^[k] (initState lib)) =
      max 1 (deerMove ((tick lib)^[k] (initState lib)).NowNumDeer
        (carryingCapacity ((tick lib)^[k] (initState lib)).NowHeight)) ∧
    |((tick lib)^[k + 1] (initState lib)).NowNumDeer -
      ((tick lib)^[k] (initState lib)).NowNumDeer| ≤ 1 := by
  have hh := hunters_after lib k
  have hq : Int.tdiv ((tick lib)^[k] (initState lib)).NowNumHunters 5 = 0 := by
    rcases hh with h | h | h | h <;> rw [h] <;> rfl
  have hkeep : ∀ n : Int, deerHunt n ((tick lib)^[k] (initState lib)).NowNumHunters = n := by
    intro n
    rw [deerHunt_eq, hq]
    simp
  have hmax : Deer ((tick lib)^[k] (initState lib)) =
      max 1 (deerMove ((tick lib)^[k] (initState lib)).NowNumDeer
        (carryingCapacity ((tick lib)^[k] (initState lib)).NowHeight)) := by
    rw [Deer_eq_max, hq]
    simp
  refine ⟨hh, hq, hkeep, hmax, ?_⟩
  rw [Function.iterate_succ_apply', tick_NowNumDeer, hmax]
  have hd := deer_after lib k
  have hnear := deerMove_near ((tick lib)^[k] (initState lib)).NowNumDeer
    (carryingCapacity ((tick lib)^[k] (initState lib)).NowHeight)
  rw [abs_le] at hnear ⊢
  rcases max_cases (1 : Int) (deerMove ((tick lib)^[k] (initState lib)).NowNumDeer
    (carryingCapacity ((tick lib)^[k] (initState lib)).NowHeight)) with ⟨h1, h2⟩ | ⟨h1, h2⟩
  · rw [h1]
    constructor <;> omega
  · rw [h1]
    exact hnear

/-- C19: the hunter count is 0 when the threads start; after `k + 1` passes
the month is `(k + 1) % 12` while the hunter count is the one `MyAgent`
assigns for month `k % 12`, the month before the last clock advance, and this
is the count `Deer` uses in the next pass. So in every pass for month 8 `Deer`
reads 0 hunters although `MyAgent` assigns 3 for that month, and in every pass
for month 11 it reads 2 although `MyAgent` assigns 0. -/
theorem C19_hunters_lag [LinearOrderedField α] [FloorRing α] (lib : Libm α) (k : Nat) :
    (initState lib).NowNumHunters = 0 ∧
    ((tick lib)^[k + 1] (initState lib)).NowMonth = (((k + 1) % 12 : Nat) : Int) ∧
    ((tick lib)^[k + 1] (initState lib)).NowNumHunters =
      (if k % 12 = 8 then 3 else if k % 12 = 9 then 4 else if k % 12 = 10 then 2 else 0) ∧
    Deer ((tick lib)^[k + 1] (initState lib)) =
      deerClamp (deerHunt
        (deerMove ((tick lib)^[k + 1] (initState lib)).NowNumDeer
          (carryingCapacity ((tick lib)^[k + 1] (initState lib)).NowHeight))
        (if k % 12 = 8 then 3 else if k % 12 = 9 then 4 else if k % 12 = 10 then 2 else 0)) ∧
    (((tick lib)^[12 * k + 8] (initState lib)).NowMonth = 8 ∧
      ((tick lib)^[12 * k + 8] (initState lib)).NowNumHunters = 0 ∧
      MyAgent ((tick lib)^[12 * k + 8] (initState lib)) = 3) ∧
    (((tick lib)^[12 * k + 11] (initState lib)).NowMonth = 11 ∧
      ((tick lib)^[12 * k + 11] (initState lib)).NowNumHunters = 2 ∧
      MyAgent ((tick lib)^[12 * k + 11] (initState lib)) = 0) := by
  refine ⟨rfl, month_after lib (k + 1), hunters_lag lib k, ?_, ?_, ?_⟩
  · unfold Deer
    rw [hunters_lag lib k]
  · have hm : ((tick lib)^[12 * k + 8] (initState lib)).NowMonth = 8 := by
      rw [month_after]
      have : (12 * k + 8) % 12 = 8 := by omega
      rw [this]
      rfl
    refine ⟨hm, ?_, ?_⟩
    · have hk : 12 * k + 8 = (12 * k + 7) + 1 := by omega
      rw [hk, hunters_lag]
      have h7 : (12 * k + 7) % 12 = 7 := by omega
      rw [h7]
      rfl
    · unfold MyAgent
      rw [huntingSeason_eq, hm]
      rfl
  · have hm : ((tick lib)^[12 * k + 11] (initState lib)).NowMonth = 11 := by
      rw [month_after]
      have : (12 * k + 11) % 12 = 11 := by omega
      rw [this]
      rfl
    refine ⟨hm, ?_, ?_⟩
    · have hk : 12 * k + 11 = (12 * k + 10) + 1 := by omega
      rw [hk, hunters_lag]
      have h10 : (12 * k + 10) % 12 = 10 := by omega
      rw [h10]
      rfl
    · unfold MyAgent
      rw [huntingSeason_eq, hm]
      rfl

end Properties

end GrainSim
